import Mathlib

/-!
# The exec sensor of bpfd (`program/exec/exec.go`)

A shallow embedding of the user-space half of the exec sensor: the decoding of
one raw fragment, the per-process argument accumulator `p.argv`, the building
of the `program.Event` on a RETURN fragment, and the `Load`/`Unload` lifecycle.

Conventions of the embedding.

* A Go `string` is a sequence of bytes (`GoString`), not necessarily UTF-8.
* A Go `map` is an association list with at most one entry per key as long as
  it is only built with `GoMap.set` and `GoMap.delete`.
* Go `int` is taken to be 64 bits wide, so `int(x)` for `x : uint32` is `x`.
* The other packages (`proc`, `program`, `bcc`) are collaborators passed in as
  an environment; every call into them is recorded in a trace.
* A run-time panic (slice bounds out of range) is an explicit outcome.
-/

namespace Bpfd

/-! ## Bytes, strings, maps -/

/-- One byte. -/
abbrev Byte := Fin 256

/-- Go strings: immutable byte sequences. -/
abbrev GoString := List Byte

/-- The bytes of an ASCII literal. -/
def str (s : String) : GoString := s.toList.map (fun c => Fin.ofNat c.toNat)

/-- Go maps as association lists. -/
abbrev GoMap (κ ν : Type) := List (κ × ν)

namespace GoMap

variable {κ ν : Type} [DecidableEq κ]

/-- The comma-ok lookup `v, ok := m[k]`. -/
def get? (m : GoMap κ ν) (k : κ) : Option ν :=
  (m.find? (fun e => decide (e.1 = k))).map (fun e => e.2)

/-- The plain lookup `m[k]`, giving the zero value `d` for a missing key. -/
def getD (m : GoMap κ ν) (k : κ) (d : ν) : ν := (get? m k).getD d

/-- The builtin `delete(m, k)`. -/
def delete (m : GoMap κ ν) (k : κ) : GoMap κ ν :=
  m.filter (fun e => decide (e.1 ≠ k))

/-- The assignment `m[k] = v`. -/
def set (m : GoMap κ ν) (k : κ) (v : ν) : GoMap κ ν :=
  delete m k ++ [(k, v)]

/-- The builtin `len(m)`. -/
def len (m : GoMap κ ν) : Nat := m.length

end GoMap

/-! ## Standard library functions used by `WatchEvent` -/

/-- Go `bytes.IndexByte(b, c)`: the index of the first `c` in `b`, or `-1`. -/
def IndexByte : List Byte → Byte → Int
  | [], _ => -1
  | x :: xs, c =>
    if x = c then 0
    else if IndexByte xs c < 0 then -1 else IndexByte xs c + 1

/-- Go slice expression `b[:hi]`; `none` is the run-time panic
"slice bounds out of range". -/
def sliceTo (b : List Byte) (hi : Int) : Option (List Byte) :=
  if 0 ≤ hi ∧ hi ≤ (b.length : Int) then some (b.take hi.toNat) else none

/-- The six ASCII white space bytes: tab, line feed, vertical tab, form feed,
carriage return, space. -/
def asciiSpace (b : Byte) : Bool :=
  b = 0x09 || b = 0x0A || b = 0x0B || b = 0x0C || b = 0x0D || b = 0x20

/-- The two-byte UTF-8 encodings of white space: U+0085 and U+00A0. -/
def space2 (b0 b1 : Byte) : Bool :=
  b0 = 0xC2 && (b1 = 0x85 || b1 = 0xA0)

/-- The three-byte UTF-8 encodings of white space: U+1680, U+2000..U+200A,
U+2028, U+2029, U+202F, U+205F, U+3000. -/
def space3 (b0 b1 b2 : Byte) : Bool :=
  (b0 = 0xE1 && b1 = 0x9A && b2 = 0x80) ||
  (b0 = 0xE2 && b1 = 0x80 &&
    ((0x80 ≤ b2.val && b2.val ≤ 0x8A) || b2 = 0xA8 || b2 = 0xA9 || b2 = 0xAF)) ||
  (b0 = 0xE2 && b1 = 0x81 && b2 = 0x9F) ||
  (b0 = 0xE3 && b1 = 0x80 && b2 = 0x80)

/-- Drops the leading runes for which `unicode.IsSpace` holds. A byte that
does not start the UTF-8 encoding of a white space rune stops the scan. -/
def trimLeft : List Byte → List Byte
  | [] => []
  | b0 :: r0 =>
    if asciiSpace b0 then trimLeft r0
    else match r0 with
      | [] => [b0]
      | b1 :: r1 =>
        if space2 b0 b1 then trimLeft r1
        else match r1 with
          | [] => [b0, b1]
          | b2 :: r2 =>
            if space3 b0 b1 b2 then trimLeft r2 else b0 :: b1 :: b2 :: r2

/-- Drops the trailing white space runes of a string given in reverse:
the argument and the result are reversed byte sequences. -/
def trimRightRev : List Byte → List Byte
  | [] => []
  | b0 :: r0 =>
    if asciiSpace b0 then trimRightRev r0
    else match r0 with
      | [] => [b0]
      | b1 :: r1 =>
        if space2 b1 b0 then trimRightRev r1
        else match r1 with
          | [] => [b0, b1]
          | b2 :: r2 =>
            if space3 b2 b1 b0 then trimRightRev r2 else b0 :: b1 :: b2 :: r2

/-- Go `strings.TrimSpace`: the string without its leading and trailing
Unicode white space. -/
def TrimSpace (s : GoString) : GoString :=
  (trimRightRev (trimLeft s).reverse).reverse

/-- Go `strings.Join(elems, sep)`. -/
def Join (elems : List GoString) (sep : GoString) : GoString :=
  sep.intercalate elems

/-- Go `fmt.Sprintf("%d", v)` for a signed integer. -/
def Sprintf_d (v : Int) : GoString := str (toString v)

/-! ## The raw fragment -/

/-- The Go struct `execEvent` (the C `struct data_t`). `Comm` holds 16 bytes
and `Argv` 128 bytes; the field `Type` is written `Type_`. -/
structure execEvent where
  PID : Nat
  TGID : Nat
  Comm : List Byte
  Type_ : Int
  Argv : List Byte
  ReturnValue : Int
deriving DecidableEq, Repr

deriving instance DecidableEq for Except

/-- Little-endian `uint32` from the first four bytes. -/
def le32 (b : List Byte) : Nat :=
  (b.getD 0 0).val + 256 * (b.getD 1 0).val + 65536 * (b.getD 2 0).val
    + 16777216 * (b.getD 3 0).val

/-- Reinterpretation of a 32-bit pattern as `int32`. -/
def int32 (u : Nat) : Int :=
  if u % 4294967296 < 2147483648 then (u % 4294967296 : Nat)
  else ((u % 4294967296 : Nat) : Int) - 4294967296

/-- The number of bytes `binary.Read` takes for an `execEvent`:
4 + 4 + 16 + 4 + 128 + 4. -/
def execEventSize : Nat := 160

/-- Go `binary.Read(bytes.NewBuffer(data), binary.LittleEndian, &event)`:
reads `execEventSize` bytes and fills the fields in declaration order. With too
few bytes the error is `io.EOF` (nothing to read) or `io.ErrUnexpectedEOF`. -/
def binaryRead (data : List Byte) : Except String execEvent :=
  if data.length = 0 then .error "EOF"
  else if data.length < execEventSize then .error "unexpected EOF"
  else .ok {
    PID := le32 (data.take 4)
    TGID := le32 ((data.drop 4).take 4)
    Comm := (data.drop 8).take 16
    Type_ := int32 (le32 ((data.drop 24).take 4))
    Argv := (data.drop 28).take 128
    ReturnValue := int32 (le32 ((data.drop 156).take 4)) }

/-! ## The sensor -/

/-- Handle of a `bpf.Module`. -/
structure Module where
  id : Nat
deriving DecidableEq, Repr

/-- Handle of a `bpf.PerfMap`. -/
structure PerfMap where
  id : Nat
deriving DecidableEq, Repr

/-- The Go struct `bpfprogram`. A nil pointer is `none`. The channel is not
part of the state: the buffer received from it is an argument of
`WatchEvent`. -/
structure bpfprogram where
  module : Option Module
  perfMap : Option PerfMap
  argv : GoMap Nat (List GoString)
deriving DecidableEq, Repr

/-- The sensor built by `Init`: no module, no perf map, an empty `argv`. -/
def Init : bpfprogram := { module := none, perfMap := none, argv := [] }

/-- The Go struct `program.Event`. -/
structure Event where
  PID : Nat
  TGID : Nat
  Data : GoMap String GoString
deriving DecidableEq, Repr

/-- A call into a collaborating package. -/
inductive Call where
  | GetContainerRuntime (tgid pid : Nat)
  | Match (data : GoMap String GoString) (runtime : GoString)
  | GetContainerID (pid : Nat)
  | Stop (pm : PerfMap)
  | Close (m : Module)
deriving DecidableEq, Repr

/-- The collaborators of `WatchEvent`: `proc.GetContainerRuntime`,
`program.Match` over a rule set of type `R`, and `proc.GetContainerID`. -/
structure Env (R : Type) where
  GetContainerRuntime : Nat → Nat → GoString
  Match : R → GoMap String GoString → GoString → Bool
  GetContainerID : Nat → GoString

/-- How a call of `WatchEvent` ends: with a run-time panic, or by returning
the pair `(*program.Event, error)`. -/
inductive Outcome where
  | panicked
  | ret (event : Option Event) (err : Option String)
deriving DecidableEq, Repr

/-- The effect of one call: its outcome, the sensor afterwards, and the calls
made into the collaborators, in order. -/
structure Result where
  outcome : Outcome
  prog : bpfprogram
  calls : List Call
deriving DecidableEq, Repr

/-- The attribute map of the event built on a RETURN fragment. -/
def eventData (p : bpfprogram) (event : execEvent) (command : GoString) :
    GoMap String GoString :=
  [("argv", Join (p.argv.getD event.PID []) (str " ")),
   ("command", command),
   ("returnval", Sprintf_d event.ReturnValue),
   ("type", Sprintf_d event.Type_)]

/-- The method `WatchEvent`, for the buffer `data` received from the channel. -/
def WatchEvent {R : Type} (env : Env R) (rules : R) (data : List Byte)
    (p : bpfprogram) : Result :=
  match binaryRead data with
  | .error err =>
    ⟨.ret none (some ("failed to decode received data: " ++ err)), p, []⟩
  | .ok event =>
    let index := IndexByte event.Argv 0
    let index := if index ≤ -1 then 128 else index
    match sliceTo event.Argv index with
    | none => ⟨.panicked, p, []⟩
    | some raw =>
      let argv := TrimSpace raw
      if event.Type_ = 0 then
        if argv.length > 0 then
          ⟨.ret none none,
           { p with argv := p.argv.set event.PID (p.argv.getD event.PID [] ++ [argv]) },
           []⟩
        else ⟨.ret none none, p, []⟩
      else if event.Type_ ≠ 1 then ⟨.ret none none, p, []⟩
      else
        match sliceTo event.Comm (IndexByte event.Comm 0) with
        | none => ⟨.panicked, p, []⟩
        | some c =>
          let command := TrimSpace c
          let runtime := env.GetContainerRuntime event.TGID event.PID
          let e : Event :=
            { PID := event.PID, TGID := event.TGID, Data := eventData p event command }
          let p1 := { p with argv := p.argv.delete event.PID }
          if env.Match rules e.Data runtime then
            let d1 := e.Data.set "runtime" runtime
            let d2 := d1.set "container_id" (env.GetContainerID event.PID)
            ⟨.ret (some { e with Data := d2 }) none, p1,
             [.GetContainerRuntime event.TGID event.PID, .Match e.Data runtime,
              .GetContainerID event.PID]⟩
          else
            ⟨.ret none none, p1,
             [.GetContainerRuntime event.TGID event.PID, .Match e.Data runtime]⟩

/-- The method `Unload`: the sensor afterwards and the calls made. -/
def Unload (p : bpfprogram) : bpfprogram × List Call :=
  let c1 := match p.perfMap with
    | some pm => [Call.Stop pm]
    | none => []
  let c2 := match p.module with
    | some m => [Call.Close m]
    | none => []
  (p, c1 ++ c2)

/-! ## Fragments as the kernel side submits them -/

/-- The four little-endian bytes of a 32-bit value. -/
def put32 (n : Nat) : List Byte :=
  [Fin.ofNat n, Fin.ofNat (n / 256), Fin.ofNat (n / 65536), Fin.ofNat (n / 16777216)]

/-- A character array of `n` bytes holding `s`, cut or filled with zero bytes. -/
def charArray (n : Nat) (s : List Byte) : List Byte :=
  s.take n ++ List.replicate (n - s.length) 0

/-- The bytes of a C `struct data_t` with the given fields; `type` and
`retval` are given as 32-bit patterns. -/
def data_t (pid tgid : Nat) (comm : List Byte) (type : Nat) (argv : List Byte)
    (retval : Nat) : List Byte :=
  put32 pid ++ put32 tgid ++ charArray 16 comm ++ put32 type ++ charArray 128 argv
    ++ put32 retval

/-! ## Load -/

/-- The calls `Load` makes into the `bcc` package, with their results. An
error is `some` message; a nil pointer is `none`. -/
structure Bcc where
  NewModule : Option Module
  LoadKprobe : String → Except String Nat
  GetSyscallFnName : String → String
  AttachKprobe : String → Nat → Option String
  AttachKretprobe : String → Nat → Option String
  InitPerfMap : Option PerfMap × Option String

/-- The method `Load`: the sensor afterwards and the returned error. -/
def Load (bcc : Bcc) (p : bpfprogram) : bpfprogram × Option String :=
  let p := { p with module := bcc.NewModule }
  match bcc.LoadKprobe "syscall__execve" with
  | .error err => (p, some ("load sys_execve kprobe failed: " ++ err))
  | .ok execKprobe =>
    let execve := bcc.GetSyscallFnName "execve"
    match bcc.AttachKprobe execve execKprobe with
    | some err => (p, some ("attach sys_execve kprobe: " ++ err))
    | none =>
      match bcc.LoadKprobe "do_ret_sys_execve" with
      | .error err => (p, some ("load sys_execve kretprobe failed: " ++ err))
      | .ok execKretprobe =>
        match bcc.AttachKretprobe execve execKretprobe with
        | some err => (p, some ("attach sys_execve kretprobe: " ++ err))
        | none =>
          let p := { p with perfMap := bcc.InitPerfMap.1 }
          match bcc.InitPerfMap.2 with
          | some err => (p, some ("init perf map failed: " ++ err))
          | none => (p, none)

/-! ## Derived notions used in the statements -/

/-- The bytes of a character array before its first zero byte (all of them when
there is none): the C string it holds. -/
def cString (b : List Byte) : List Byte := b.takeWhile (fun x => decide (x ≠ 0))

/-- The argument string an ARG fragment carries: the payload up to its first
zero byte, without surrounding white space. -/
def payloadArg (ev : execEvent) : GoString := TrimSpace (cString ev.Argv)

/-- The command name of a fragment: the `Comm` field up to its first zero
byte, without surrounding white space. -/
def commandOf (ev : execEvent) : GoString := TrimSpace (cString ev.Comm)

/-- The result of `WatchEvent` on a RETURN fragment whose slices are in range. -/
def returnResult {R : Type} (env : Env R) (rules : R) (ev : execEvent)
    (p : bpfprogram) : Result :=
  let data := eventData p ev (commandOf ev)
  let runtime := env.GetContainerRuntime ev.TGID ev.PID
  let p1 := { p with argv := p.argv.delete ev.PID }
  if env.Match rules data runtime then
    ⟨.ret (some { PID := ev.PID, TGID := ev.TGID,
                  Data := (data.set "runtime" runtime).set "container_id"
                    (env.GetContainerID ev.PID) }) none,
     p1,
     [.GetContainerRuntime ev.TGID ev.PID, .Match data runtime, .GetContainerID ev.PID]⟩
  else
    ⟨.ret none none, p1, [.GetContainerRuntime ev.TGID ev.PID, .Match data runtime]⟩

/-- The fragment a buffer decodes to, if it decodes. -/
def fragmentOf (data : List Byte) : Option execEvent :=
  match binaryRead data with
  | .ok ev => some ev
  | .error _ => none

/-- The trimmed payload of a buffer (empty when it does not decode). -/
def fragmentArg (data : List Byte) : GoString :=
  match fragmentOf data with
  | some ev => payloadArg ev
  | none => []

/-- Whether a buffer decodes to a fragment of kind `k`. -/
def hasKind (k : Int) (data : List Byte) : Bool :=
  match fragmentOf data with
  | some ev => decide (ev.Type_ = k)
  | none => false

/-- Whether a buffer decodes to a fragment of process `pid`. -/
def hasPid (pid : Nat) (data : List Byte) : Bool :=
  match fragmentOf data with
  | some ev => decide (ev.PID = pid)
  | none => false

/-- A fragment stream: each delivered buffer together with the behaviour of
the collaborators during the call that receives it. -/
abbrev Stream (R : Type) := List (Env R × List Byte)

/-- Successive calls of `WatchEvent`, one per delivered buffer, in order, as
the watch loop makes them. A panic ends the run: `none`. -/
def WatchEvents {R : Type} (rules : R) : Stream R → bpfprogram → Option bpfprogram
  | [], p => some p
  | x :: rest, p =>
    match (WatchEvent x.1 rules x.2 p).outcome with
    | .panicked => none
    | .ret _ _ => WatchEvents rules rest (WatchEvent x.1 rules x.2 p).prog

/-- The buffers of a stream that decode to a fragment of process `pid`. -/
def fragmentsOf {R : Type} (pid : Nat) (stream : Stream R) : List (List Byte) :=
  (stream.map (fun x => x.2)).filter (hasPid pid)

/-- A complete sequence: ARG fragments followed by one RETURN fragment. -/
def isCompleteSeq (frags : List (List Byte)) : Bool :=
  match frags.reverse with
  | [] => false
  | r :: args => hasKind 1 r && args.all (hasKind 0)

/-- The stream consists of one complete (ARG*, RETURN) sequence for each of
the distinct process ids `pids`, interleaved in any way that keeps the order
of each process's own fragments. -/
def CompleteSequences {R : Type} (pids : List Nat) (stream : Stream R) : Prop :=
  pids.Nodup ∧
  (stream.all (fun x => pids.any (fun pid => hasPid pid x.2)) = true) ∧
  (pids.all (fun pid => isCompleteSeq (fragmentsOf pid stream)) = true)

/-- A payload without its trailing zero bytes. -/
def stripTrailingZeros (b : List Byte) : List Byte :=
  (b.reverse.dropWhile (fun x => decide (x = 0))).reverse

/-- The string of an ARG payload as the specification words it: the trailing
terminator bytes removed, then the surrounding white space. -/
def claimedArg (ev : execEvent) : GoString := TrimSpace (stripTrailingZeros ev.Argv)

/-- The effect of one delivered buffer on the accumulator of the process it
belongs to: an ARG fragment appends its non-empty argument, a RETURN fragment
removes the accumulator, anything else leaves it. -/
def accStep (data : List Byte) (acc : Option (List GoString)) : Option (List GoString) :=
  match fragmentOf data with
  | none => acc
  | some ev =>
    if ev.Type_ = 0 then
      if payloadArg ev ≠ [] then some (acc.getD [] ++ [payloadArg ev]) else acc
    else if ev.Type_ = 1 then none
    else acc

/-- The accumulator of a process after its own fragments `frags`, in order. -/
def accumulate (frags : List (List Byte)) (acc : Option (List GoString)) :
    Option (List GoString) :=
  frags.foldl (fun a d => accStep d a) acc

/-! ## Concrete inputs -/

/-- A stand-in rule engine for the examples: a rule constrains one attribute
to a value, and a rule set matches when one of its rules holds. -/
def exampleEnv : Env (List (String × GoString)) where
  GetContainerRuntime := fun _ _ => str "not-found"
  Match := fun rules data _ => rules.any (fun r => decide (data.get? r.1 = some r.2))
  GetContainerID := fun _ => []

/-- An ARG fragment of process `pid`. -/
def argFragment (pid : Nat) (comm payload : List Byte) : List Byte :=
  data_t pid 1 comm 0 payload 0

/-- A RETURN fragment of process `pid`. -/
def retFragment (pid : Nat) (comm : List Byte) (retval : Nat) : List Byte :=
  data_t pid 1 comm 1 [] retval

/-- A RETURN fragment whose command field holds sixteen non-zero bytes,
followed by the four bytes that fill the perf sample to 164 bytes. -/
def unterminatedReturn : List Byte :=
  retFragment 7 (str "0123456789abcdef") 0 ++ [0, 0, 0, 0]

/-- An ARG fragment whose payload holds 128 non-zero bytes. -/
def unterminatedArg : List Byte :=
  argFragment 7 (str "sh") (List.replicate 128 0x78)

/-- A loaded sensor: a module and a perf map. -/
def loadedSensor : bpfprogram :=
  { module := some ⟨1⟩, perfMap := some ⟨2⟩, argv := [] }

/-- The rule set of the examples: command == "ls". -/
def lsRules : List (String × GoString) := [("command", str "ls")]

/-- The ARG fragments of `ls -la` run by process 100 (the command field still
holds the name of the calling shell). -/
def lsArgs : Stream (List (String × GoString)) :=
  [(exampleEnv, argFragment 100 (str "bash") (str "/bin/ls")),
   (exampleEnv, argFragment 100 (str "bash") (str "-la"))]

/-- The RETURN fragment of process 100: command "ls", return value 0. -/
def lsReturn : List Byte := retFragment 100 (str "ls") 0

/-- The ARG fragments of process 7 run with the arguments "a", "" and "b". -/
def gapArgs : Stream (List (String × GoString)) :=
  [(exampleEnv, argFragment 7 (str "sh") (str "a")),
   (exampleEnv, argFragment 7 (str "sh") []),
   (exampleEnv, argFragment 7 (str "sh") (str "b"))]

/-- The RETURN fragment of process 7: command "ls", return value -2. -/
def gapReturn : List Byte := retFragment 7 (str "ls") 0xFFFFFFFE

/-- A RETURN fragment whose command field is " ls": a space, then "ls". -/
def paddedReturn : List Byte := retFragment 7 (str " ls") 0

/-- The complete sequences of processes 100 and 200, interleaved. -/
def twoProcesses : Stream (List (String × GoString)) :=
  [(exampleEnv, argFragment 100 (str "bash") (str "/bin/ls")),
   (exampleEnv, argFragment 200 (str "bash") (str "/bin/cat")),
   (exampleEnv, argFragment 100 (str "bash") (str "-la")),
   (exampleEnv, retFragment 200 (str "cat") 0),
   (exampleEnv, retFragment 100 (str "ls") 0)]

/-- Process 100 interrupted by a whole sequence of process 200. -/
def interleaved : Stream (List (String × GoString)) :=
  [(exampleEnv, argFragment 100 (str "bash") (str "/bin/ls")),
   (exampleEnv, argFragment 200 (str "bash") (str "/bin/cat")),
   (exampleEnv, retFragment 200 (str "cat") 0),
   (exampleEnv, argFragment 100 (str "bash") (str "-la"))]

/-- A `bcc` in which every step of `Load` succeeds. -/
def okBcc : Bcc where
  NewModule := some ⟨1⟩
  LoadKprobe := fun _ => .ok 3
  GetSyscallFnName := fun s => s
  AttachKprobe := fun _ _ => none
  AttachKretprobe := fun _ _ => none
  InitPerfMap := (some ⟨2⟩, none)

/-- A `bcc` in which attaching the kretprobe fails. -/
def failingBcc : Bcc :=
  { okBcc with AttachKretprobe := fun _ _ => some "permission denied" }

end Bpfd

namespace Bpfd

/-! ## Lemmas on maps and slices -/

namespace GoMap
variable {κ ν : Type} [DecidableEq κ]

theorem get?_cons (e : κ × ν) (m : GoMap κ ν) (k : κ) :
    get? (e :: m) k = if e.1 = k then some e.2 else get? m k := by
  by_cases h : e.1 = k
  · simp [get?, List.find?_cons, h]
  · simp [get?, List.find?_cons, h]

theorem delete_cons (e : κ × ν) (m : GoMap κ ν) (k : κ) :
    delete (e :: m) k = if e.1 = k then delete m k else e :: delete m k := by
  by_cases h : e.1 = k
  · simp [delete, List.filter_cons, h]
  · simp [delete, List.filter_cons, h]

theorem get?_delete_self (m : GoMap κ ν) (k : κ) : get? (delete m k) k = none := by
  induction m with
  | nil => rfl
  | cons e m ih =>
    rw [delete_cons]
    by_cases h : e.1 = k
    · rw [if_pos h]; exact ih
    · rw [if_neg h, get?_cons, if_neg h]; exact ih

theorem get?_delete_of_ne (m : GoMap κ ν) {k q : κ} (h : q ≠ k) :
    get? (delete m k) q = get? m q := by
  induction m with
  | nil => rfl
  | cons e m ih =>
    rw [delete_cons, get?_cons]
    by_cases h1 : e.1 = k
    · have h2 : ¬ e.1 = q := by rw [h1]; exact fun h3 => h h3.symm
      rw [if_pos h1, if_neg h2]; exact ih
    · rw [if_neg h1, get?_cons, ih]

theorem get?_append_of_none (m n : GoMap κ ν) (k : κ) (h : get? m k = none) :
    get? (m ++ n) k = get? n k := by
  induction m with
  | nil => rfl
  | cons e m ih =>
    rw [get?_cons] at h
    rw [List.cons_append, get?_cons]
    by_cases h1 : e.1 = k
    · rw [if_pos h1] at h; cases h
    · rw [if_neg h1] at h; rw [if_neg h1]; exact ih h

theorem get?_append_of_some (m n : GoMap κ ν) (k : κ) (v : ν) (h : get? m k = some v) :
    get? (m ++ n) k = some v := by
  induction m with
  | nil => cases h
  | cons e m ih =>
    rw [get?_cons] at h
    rw [List.cons_append, get?_cons]
    by_cases h1 : e.1 = k
    · rw [if_pos h1] at h; rw [if_pos h1]; exact h
    · rw [if_neg h1] at h; rw [if_neg h1]; exact ih h

theorem get?_set_self (m : GoMap κ ν) (k : κ) (v : ν) : get? (set m k v) k = some v := by
  unfold set
  rw [get?_append_of_none _ _ _ (get?_delete_self m k), get?_cons, if_pos rfl]

theorem get?_set_of_ne (m : GoMap κ ν) {k q : κ} (v : ν) (h : q ≠ k) :
    get? (set m k v) q = get? m q := by
  unfold set
  cases h1 : get? (delete m k) q with
  | none =>
    rw [get?_append_of_none _ _ _ h1, ← get?_delete_of_ne m h, h1, get?_cons,
      if_neg (Ne.symm h)]
    rfl
  | some w =>
    rw [get?_append_of_some _ _ _ _ h1, ← get?_delete_of_ne m h, h1]

theorem eq_nil_of_get?_none (m : GoMap κ ν) (h : ∀ k, get? m k = none) : m = [] := by
  cases m with
  | nil => rfl
  | cons e m =>
    have h1 := h e.1
    rw [get?_cons, if_pos rfl] at h1
    cases h1

end GoMap

theorem IndexByte_of_mem (b : List Byte) (c : Byte) (h : c ∈ b) :
    IndexByte b c = ((b.takeWhile (fun x => decide (x ≠ c))).length : Int) := by
  induction b with
  | nil => simp at h
  | cons x xs ih =>
    by_cases hx : x = c
    · simp [IndexByte, hx]
    · have hm : c ∈ xs := by
        rcases List.mem_cons.1 h with h1 | h1
        · exact absurd h1.symm hx
        · exact h1
      have h2 := ih hm
      have h3 : ¬ IndexByte xs c < 0 := by rw [h2]; omega
      simp only [IndexByte, hx, if_false, h3]
      rw [h2]
      simp [List.takeWhile_cons, hx]

theorem IndexByte_of_not_mem (b : List Byte) (c : Byte) (h : c ∉ b) :
    IndexByte b c = -1 := by
  induction b with
  | nil => rfl
  | cons x xs ih =>
    have hx : ¬ x = c := fun h1 => h (by simp [h1])
    have hm : c ∉ xs := fun h1 => h (List.mem_cons_of_mem _ h1)
    simp [IndexByte, hx, ih hm]

theorem take_length_takeWhile (b : List Byte) (f : Byte → Bool) :
    b.take (b.takeWhile f).length = b.takeWhile f := by
  induction b with
  | nil => rfl
  | cons x xs ih =>
    by_cases hx : f x
    · simp [List.takeWhile_cons, hx, ih]
    · simp [List.takeWhile_cons, hx]

theorem takeWhile_of_not_mem (b : List Byte) (c : Byte) (h : c ∉ b) :
    b.takeWhile (fun x => decide (x ≠ c)) = b := by
  induction b with
  | nil => rfl
  | cons x xs ih =>
    have hx : ¬ x = c := fun h1 => h (by simp [h1])
    have hm : c ∉ xs := fun h1 => h (List.mem_cons_of_mem _ h1)
    rw [List.takeWhile_cons, ih hm]
    simp [hx]

/-- The expression `event.Comm[:bytes.IndexByte(event.Comm[:], 0)]`. -/
theorem sliceTo_IndexByte (b : List Byte) :
    sliceTo b (IndexByte b 0) = if 0 ∈ b then some (cString b) else none := by
  by_cases h : (0 : Byte) ∈ b
  · have hl : (b.takeWhile (fun x => decide (x ≠ 0))).length ≤ b.length :=
      (List.takeWhile_sublist _).length_le
    rw [if_pos h, IndexByte_of_mem b 0 h, sliceTo, if_pos ⟨by omega, by exact_mod_cast hl⟩]
    simp [cString, take_length_takeWhile]
  · rw [if_neg h, IndexByte_of_not_mem b 0 h]
    simp [sliceTo]

/-- The expression `event.Argv[:index]` with `index` defaulting to 128. -/
theorem sliceTo_index (b : List Byte) (hb : b.length = 128) :
    sliceTo b (if IndexByte b 0 ≤ -1 then 128 else IndexByte b 0) = some (cString b) := by
  by_cases h : (0 : Byte) ∈ b
  · have hl : (b.takeWhile (fun x => decide (x ≠ 0))).length ≤ b.length :=
      (List.takeWhile_sublist _).length_le
    have h1 := sliceTo_IndexByte b
    rw [if_pos h] at h1
    have h2 : ¬ IndexByte b 0 ≤ -1 := by rw [IndexByte_of_mem b 0 h]; omega
    rw [if_neg h2, h1]
  · have h2 : IndexByte b 0 ≤ -1 := by rw [IndexByte_of_not_mem b 0 h]
    rw [if_pos h2, sliceTo, if_pos ⟨by omega, by rw [hb]; norm_num⟩]
    have : (128 : Int).toNat = b.length := by rw [hb]; rfl
    rw [this, List.take_length, cString, takeWhile_of_not_mem b 0 h]

theorem binaryRead_ok_iff (data : List Byte) :
    (∃ ev, binaryRead data = .ok ev) ↔ 160 ≤ data.length := by
  unfold binaryRead execEventSize
  by_cases h0 : data.length = 0
  · simp [h0]
  · by_cases h1 : data.length < 160
    · simp [h0, h1]
    · simp [h0, h1]; omega

theorem binaryRead_lengths (data : List Byte) (ev : execEvent)
    (h : binaryRead data = .ok ev) : ev.Comm.length = 16 ∧ ev.Argv.length = 128 := by
  have hl : 160 ≤ data.length := (binaryRead_ok_iff data).1 ⟨ev, h⟩
  unfold binaryRead execEventSize at h
  have h0 : ¬ data.length = 0 := by omega
  have h1 : ¬ data.length < 160 := by omega
  simp only [h0, h1, if_false] at h
  injection h with h
  subst h
  simp
  omega


section
variable {R : Type} (env : Env R) (rules : R)

theorem WatchEvent_error (data : List Byte) (p : bpfprogram) (e : String)
    (h : binaryRead data = .error e) :
    WatchEvent env rules data p =
      ⟨.ret none (some ("failed to decode received data: " ++ e)), p, []⟩ := by
  unfold WatchEvent
  rw [h]

theorem WatchEvent_arg (data : List Byte) (p : bpfprogram) (ev : execEvent)
    (h : binaryRead data = .ok ev) (hk : ev.Type_ = 0) :
    WatchEvent env rules data p =
      if payloadArg ev ≠ [] then
        ⟨.ret none none,
         { p with argv := p.argv.set ev.PID (p.argv.getD ev.PID [] ++ [payloadArg ev]) },
         []⟩
      else ⟨.ret none none, p, []⟩ := by
  unfold WatchEvent
  rw [h]
  simp only [sliceTo_index ev.Argv (binaryRead_lengths data ev h).2, hk, if_true]
  by_cases hn : payloadArg ev = []
  · have h0 : ¬ (TrimSpace (cString ev.Argv)).length > 0 := by
      unfold payloadArg at hn; rw [hn]; simp
    simp [hn, h0]
  · have h0 : (TrimSpace (cString ev.Argv)).length > 0 := by
      unfold payloadArg at hn; exact List.length_pos.2 hn
    unfold payloadArg at hn
    simp [hn, h0, payloadArg]

theorem WatchEvent_other (data : List Byte) (p : bpfprogram) (ev : execEvent)
    (h : binaryRead data = .ok ev) (h0 : ev.Type_ ≠ 0) (h1 : ev.Type_ ≠ 1) :
    WatchEvent env rules data p = ⟨.ret none none, p, []⟩ := by
  unfold WatchEvent
  rw [h]
  simp only [sliceTo_index ev.Argv (binaryRead_lengths data ev h).2, h0, h1, if_false,
    ne_eq, not_false_eq_true, if_true]

theorem WatchEvent_return (data : List Byte) (p : bpfprogram) (ev : execEvent)
    (h : binaryRead data = .ok ev) (hk : ev.Type_ = 1) (hz : (0 : Byte) ∈ ev.Comm) :
    WatchEvent env rules data p = returnResult env rules ev p := by
  unfold WatchEvent
  rw [h]
  have h0 : ¬ ev.Type_ = 0 := by rw [hk]; decide
  simp only [sliceTo_index ev.Argv (binaryRead_lengths data ev h).2, h0, if_false,
    sliceTo_IndexByte ev.Comm, hz, if_true, hk, ne_eq, not_true_eq_false]
  rfl

theorem WatchEvent_return_panicked (data : List Byte) (p : bpfprogram) (ev : execEvent)
    (h : binaryRead data = .ok ev) (hk : ev.Type_ = 1) (hz : (0 : Byte) ∉ ev.Comm) :
    WatchEvent env rules data p = ⟨.panicked, p, []⟩ := by
  unfold WatchEvent
  rw [h]
  have h0 : ¬ ev.Type_ = 0 := by rw [hk]; decide
  simp only [sliceTo_index ev.Argv (binaryRead_lengths data ev h).2, h0, if_false,
    sliceTo_IndexByte ev.Comm, hz, hk, ne_eq, not_true_eq_false]
  rfl

end

end Bpfd

namespace Bpfd

/-! ## Lemmas on single calls and on streams -/

section
variable {R : Type} (env : Env R) (rules : R)

theorem fragmentOf_some (data : List Byte) (ev : execEvent) :
    fragmentOf data = some ev ↔ binaryRead data = .ok ev := by
  unfold fragmentOf
  cases h : binaryRead data with
  | error e => simp
  | ok ev1 => simp

theorem fragmentOf_none (data : List Byte) :
    fragmentOf data = none ↔ ∃ e, binaryRead data = .error e := by
  unfold fragmentOf
  cases h : binaryRead data with
  | error e => simp
  | ok ev1 => simp

theorem returnResult_prog (ev : execEvent) (p : bpfprogram) :
    (returnResult env rules ev p).prog = { p with argv := p.argv.delete ev.PID } := by
  unfold returnResult
  by_cases h : env.Match rules (eventData p ev (commandOf ev))
      (env.GetContainerRuntime ev.TGID ev.PID) = true
  · simp [h]
  · simp [h]

theorem returnResult_not_panicked (ev : execEvent) (p : bpfprogram) :
    (returnResult env rules ev p).outcome ≠ .panicked := by
  unfold returnResult
  by_cases h : env.Match rules (eventData p ev (commandOf ev))
      (env.GetContainerRuntime ev.TGID ev.PID) = true
  · simp [h]
  · simp [h]

/-- A call panics exactly on a RETURN fragment whose command field holds no
zero byte. -/
theorem WatchEvent_panicked_iff (data : List Byte) (p : bpfprogram) :
    (WatchEvent env rules data p).outcome = .panicked ↔
      ∃ ev, fragmentOf data = some ev ∧ ev.Type_ = 1 ∧ (0 : Byte) ∉ ev.Comm := by
  cases h : binaryRead data with
  | error e =>
    have hn : fragmentOf data = none := (fragmentOf_none data).2 ⟨e, h⟩
    rw [WatchEvent_error env rules data p e h]
    simp [hn]
  | ok ev =>
    have hs : fragmentOf data = some ev := (fragmentOf_some data ev).2 h
    by_cases h0 : ev.Type_ = 0
    · rw [WatchEvent_arg env rules data p ev h h0]
      have h1 : ¬ ev.Type_ = 1 := by rw [h0]; decide
      by_cases hn : payloadArg ev = []
      · simp [hn, hs, h1]
      · simp [hn, hs, h1]
    · by_cases h1 : ev.Type_ = 1
      · by_cases hz : (0 : Byte) ∈ ev.Comm
        · rw [WatchEvent_return env rules data p ev h h1 hz]
          simp [hs, hz, returnResult_not_panicked]
        · rw [WatchEvent_return_panicked env rules data p ev h h1 hz]
          simp [hs, hz, h1]
      · rw [WatchEvent_other env rules data p ev h h0 h1]
        simp [hs, h1]

/-- Apart from the panic, a call returns no event and no error, or an event and
no error, or an error and no event. -/
theorem WatchEvent_outcomes (data : List Byte) (p : bpfprogram) :
    (WatchEvent env rules data p).outcome = .panicked ∨
    (WatchEvent env rules data p).outcome = .ret none none ∨
    (∃ e, (WatchEvent env rules data p).outcome = .ret (some e) none) ∨
    (∃ msg, (WatchEvent env rules data p).outcome = .ret none (some msg)) := by
  cases h : binaryRead data with
  | error e =>
    rw [WatchEvent_error env rules data p e h]
    exact Or.inr (Or.inr (Or.inr ⟨_, rfl⟩))
  | ok ev =>
    by_cases h0 : ev.Type_ = 0
    · rw [WatchEvent_arg env rules data p ev h h0]
      by_cases hn : payloadArg ev = []
      · simp [hn]
      · simp [hn]
    · by_cases h1 : ev.Type_ = 1
      · by_cases hz : (0 : Byte) ∈ ev.Comm
        · rw [WatchEvent_return env rules data p ev h h1 hz]
          unfold returnResult
          by_cases hm : env.Match rules (eventData p ev (commandOf ev))
              (env.GetContainerRuntime ev.TGID ev.PID) = true
          · simp [hm]
          · simp [hm]
        · rw [WatchEvent_return_panicked env rules data p ev h h1 hz]
          exact Or.inl rfl
      · rw [WatchEvent_other env rules data p ev h h0 h1]
        exact Or.inr (Or.inl rfl)

theorem WatchEvent_prog_of_undecodable (data : List Byte) (p : bpfprogram)
    (h : fragmentOf data = none) : (WatchEvent env rules data p).prog = p := by
  obtain ⟨e, he⟩ := (fragmentOf_none data).1 h
  rw [WatchEvent_error env rules data p e he]

theorem WatchEvent_get?_of_ne (data : List Byte) (p : bpfprogram) (ev : execEvent)
    (q : Nat) (h : fragmentOf data = some ev) (hq : q ≠ ev.PID) :
    (WatchEvent env rules data p).prog.argv.get? q = p.argv.get? q := by
  have hb := (fragmentOf_some data ev).1 h
  by_cases h0 : ev.Type_ = 0
  · rw [WatchEvent_arg env rules data p ev hb h0]
    by_cases hn : payloadArg ev = []
    · simp [hn]
    · simp only [ne_eq, hn, not_false_eq_true, if_true]
      exact GoMap.get?_set_of_ne _ _ hq
  · by_cases h1 : ev.Type_ = 1
    · by_cases hz : (0 : Byte) ∈ ev.Comm
      · rw [WatchEvent_return env rules data p ev hb h1 hz, returnResult_prog]
        exact GoMap.get?_delete_of_ne _ hq
      · rw [WatchEvent_return_panicked env rules data p ev hb h1 hz]
    · rw [WatchEvent_other env rules data p ev hb h0 h1]

theorem WatchEvent_get?_own (data : List Byte) (p : bpfprogram) (ev : execEvent)
    (h : fragmentOf data = some ev)
    (hp : (WatchEvent env rules data p).outcome ≠ .panicked) :
    (WatchEvent env rules data p).prog.argv.get? ev.PID =
      accStep data (p.argv.get? ev.PID) := by
  have hb := (fragmentOf_some data ev).1 h
  unfold accStep
  rw [h]
  by_cases h0 : ev.Type_ = 0
  · rw [WatchEvent_arg env rules data p ev hb h0]
    by_cases hn : payloadArg ev = []
    · simp [hn, h0]
    · simp only [ne_eq, hn, not_false_eq_true, if_true, h0]
      rw [GoMap.get?_set_self]
      rfl
  · by_cases h1 : ev.Type_ = 1
    · by_cases hz : (0 : Byte) ∈ ev.Comm
      · rw [WatchEvent_return env rules data p ev hb h1 hz, returnResult_prog]
        simp only [h0, h1, if_false, if_true]
        exact GoMap.get?_delete_self _ _
      · rw [WatchEvent_return_panicked env rules data p ev hb h1 hz] at hp
        exact absurd rfl hp
    · rw [WatchEvent_other env rules data p ev hb h0 h1]
      simp [h0, h1]

theorem accStep_of_undecodable (data : List Byte) (acc : Option (List GoString))
    (h : fragmentOf data = none) : accStep data acc = acc := by
  unfold accStep
  rw [h]

theorem WatchEvent_get? (data : List Byte) (p : bpfprogram) (pid : Nat)
    (hp : (WatchEvent env rules data p).outcome ≠ .panicked) :
    (WatchEvent env rules data p).prog.argv.get? pid =
      if hasPid pid data = true then accStep data (p.argv.get? pid)
      else p.argv.get? pid := by
  cases h : fragmentOf data with
  | none =>
    rw [WatchEvent_prog_of_undecodable env rules data p h]
    simp [hasPid, h]
  | some ev =>
    by_cases hq : ev.PID = pid
    · have h1 : hasPid pid data = true := by simp [hasPid, h, hq]
      rw [if_pos h1, ← hq]
      exact WatchEvent_get?_own env rules data p ev h hp
    · have h1 : ¬ hasPid pid data = true := by simp [hasPid, h, hq]
      rw [if_neg h1]
      exact WatchEvent_get?_of_ne env rules data p ev pid h (Ne.symm hq)

theorem WatchEvents_cons (x : Env R × List Byte) (rest : Stream R) (p : bpfprogram) :
    WatchEvents rules (x :: rest) p =
      if (WatchEvent x.1 rules x.2 p).outcome = .panicked then none
      else WatchEvents rules rest (WatchEvent x.1 rules x.2 p).prog := by
  rw [WatchEvents]
  cases h : (WatchEvent x.1 rules x.2 p).outcome with
  | panicked => simp
  | ret e err => simp

theorem fragmentsOf_cons (pid : Nat) (x : Env R × List Byte) (rest : Stream R) :
    fragmentsOf pid (x :: rest) =
      if hasPid pid x.2 = true then x.2 :: fragmentsOf pid rest
      else fragmentsOf pid rest := by
  unfold fragmentsOf
  by_cases h : hasPid pid x.2 = true
  · simp [List.filter_cons, h]
  · simp [List.filter_cons, h]

/-- After a run that completes, the accumulator of a process is determined by
its accumulator before and by its own fragments. -/
theorem WatchEvents_get? (stream : Stream R) (p p1 : bpfprogram) (pid : Nat)
    (h : WatchEvents rules stream p = some p1) :
    p1.argv.get? pid = accumulate (fragmentsOf pid stream) (p.argv.get? pid) := by
  induction stream generalizing p with
  | nil =>
    rw [WatchEvents] at h
    cases h
    rfl
  | cons x rest ih =>
    rw [WatchEvents_cons] at h
    by_cases hp : (WatchEvent x.1 rules x.2 p).outcome = .panicked
    · rw [if_pos hp] at h; cases h
    · rw [if_neg hp] at h
      rw [ih _ h, WatchEvent_get? x.1 rules x.2 p pid hp, fragmentsOf_cons]
      by_cases hh : hasPid pid x.2 = true
      · rw [if_pos hh, if_pos hh]; rfl
      · rw [if_neg hh, if_neg hh]

/-- A run completes when every RETURN fragment of the stream has a zero byte
in its command field. -/
theorem WatchEvents_completes (stream : Stream R) (p : bpfprogram)
    (h : ∀ x ∈ stream, ∀ ev, fragmentOf x.2 = some ev → ev.Type_ = 1 →
      (0 : Byte) ∈ ev.Comm) :
    ∃ p1, WatchEvents rules stream p = some p1 := by
  induction stream generalizing p with
  | nil => exact ⟨p, rfl⟩
  | cons x rest ih =>
    rw [WatchEvents_cons]
    have hp : ¬ (WatchEvent x.1 rules x.2 p).outcome = .panicked := by
      intro hpan
      obtain ⟨ev, h1, h2, h3⟩ := (WatchEvent_panicked_iff x.1 rules x.2 p).1 hpan
      exact h3 (h x (List.mem_cons_self _ _) ev h1 h2)
    rw [if_neg hp]
    exact ih _ (fun y hy => h y (List.mem_cons_of_mem _ hy))

theorem eventData_get? (p : bpfprogram) (ev : execEvent) (c : GoString) :
    (eventData p ev c).get? "argv" = some (Join (p.argv.getD ev.PID []) (str " ")) ∧
    (eventData p ev c).get? "command" = some c ∧
    (eventData p ev c).get? "returnval" = some (Sprintf_d ev.ReturnValue) ∧
    (eventData p ev c).get? "type" = some (Sprintf_d ev.Type_) :=
  ⟨rfl, rfl, rfl, rfl⟩

/-- The attributes of the event returned on a match: the four built before the
match, then "runtime" and "container_id". -/
theorem matched_get? (d : GoMap String GoString) (rt cid : GoString) :
    ((d.set "runtime" rt).set "container_id" cid).get? "runtime" = some rt ∧
    ((d.set "runtime" rt).set "container_id" cid).get? "container_id" = some cid ∧
    ∀ k, k ≠ "runtime" → k ≠ "container_id" →
      ((d.set "runtime" rt).set "container_id" cid).get? k = d.get? k := by
  refine ⟨?_, GoMap.get?_set_self _ _ _, ?_⟩
  · rw [GoMap.get?_set_of_ne _ _ (by decide), GoMap.get?_set_self]
  · intro k h1 h2
    rw [GoMap.get?_set_of_ne _ _ h2, GoMap.get?_set_of_ne _ _ h1]

theorem returnResult_matched (ev : execEvent) (p : bpfprogram)
    (hm : env.Match rules (eventData p ev (commandOf ev))
      (env.GetContainerRuntime ev.TGID ev.PID) = true) :
    returnResult env rules ev p =
      ⟨.ret (some { PID := ev.PID, TGID := ev.TGID,
                    Data := ((eventData p ev (commandOf ev)).set "runtime"
                      (env.GetContainerRuntime ev.TGID ev.PID)).set "container_id"
                      (env.GetContainerID ev.PID) }) none,
       { p with argv := p.argv.delete ev.PID },
       [.GetContainerRuntime ev.TGID ev.PID,
        .Match (eventData p ev (commandOf ev)) (env.GetContainerRuntime ev.TGID ev.PID),
        .GetContainerID ev.PID]⟩ := by
  unfold returnResult
  simp [hm]

theorem returnResult_unmatched (ev : execEvent) (p : bpfprogram)
    (hm : env.Match rules (eventData p ev (commandOf ev))
      (env.GetContainerRuntime ev.TGID ev.PID) = false) :
    returnResult env rules ev p =
      ⟨.ret none none, { p with argv := p.argv.delete ev.PID },
       [.GetContainerRuntime ev.TGID ev.PID,
        .Match (eventData p ev (commandOf ev))
          (env.GetContainerRuntime ev.TGID ev.PID)]⟩ := by
  unfold returnResult
  simp [hm]

theorem eventData_congr (a b : bpfprogram) (ev : execEvent) (c : GoString)
    (h : a.argv.get? ev.PID = b.argv.get? ev.PID) :
    eventData a ev c = eventData b ev c := by
  unfold eventData GoMap.getD
  rw [h]

/-- The outcome of a call on a decoded fragment and the calls it makes depend
on the sensor only through the accumulator of the fragment's process. -/
theorem WatchEvent_congr_own (data : List Byte) (a b : bpfprogram) (ev : execEvent)
    (h : binaryRead data = .ok ev) (hacc : a.argv.get? ev.PID = b.argv.get? ev.PID) :
    (WatchEvent env rules data a).outcome = (WatchEvent env rules data b).outcome ∧
    (WatchEvent env rules data a).calls = (WatchEvent env rules data b).calls := by
  by_cases h0 : ev.Type_ = 0
  · rw [WatchEvent_arg env rules data a ev h h0, WatchEvent_arg env rules data b ev h h0]
    by_cases hn : payloadArg ev = []
    · simp [hn]
    · simp [hn]
  · by_cases h1 : ev.Type_ = 1
    · by_cases hz : (0 : Byte) ∈ ev.Comm
      · rw [WatchEvent_return env rules data a ev h h1 hz,
          WatchEvent_return env rules data b ev h h1 hz]
        unfold returnResult
        rw [eventData_congr a b ev (commandOf ev) hacc]
        by_cases hm : env.Match rules (eventData b ev (commandOf ev))
            (env.GetContainerRuntime ev.TGID ev.PID) = true
        · simp [hm]
        · simp [hm]
      · rw [WatchEvent_return_panicked env rules data a ev h h1 hz,
          WatchEvent_return_panicked env rules data b ev h h1 hz]
        exact ⟨rfl, rfl⟩
    · rw [WatchEvent_other env rules data a ev h h0 h1,
        WatchEvent_other env rules data b ev h h0 h1]
      exact ⟨rfl, rfl⟩

theorem accStep_arg (data : List Byte) (acc : Option (List GoString))
    (hk : hasKind 0 data = true) :
    (accStep data acc).getD [] =
      acc.getD [] ++ [fragmentArg data].filter (fun t => decide (t ≠ [])) := by
  unfold hasKind at hk
  unfold accStep fragmentArg
  cases hf : fragmentOf data with
  | none => rw [hf] at hk; cases hk
  | some ev =>
    rw [hf] at hk
    have h0 : ev.Type_ = 0 := of_decide_eq_true hk
    by_cases hn : payloadArg ev = []
    · simp [h0, hn]
    · simp [h0, hn]

/-- The accumulator after ARG fragments only: the previous contents followed
by the non-empty arguments, in order. -/
theorem accumulate_args (frags : List (List Byte)) (acc : Option (List GoString))
    (h : ∀ d ∈ frags, hasKind 0 d = true) :
    (accumulate frags acc).getD [] =
      acc.getD [] ++ (frags.map fragmentArg).filter (fun t => decide (t ≠ [])) := by
  induction frags generalizing acc with
  | nil => simp [accumulate]
  | cons d rest ih =>
    have hd := h d (List.mem_cons_self _ _)
    have hrest : ∀ x ∈ rest, hasKind 0 x = true :=
      fun x hx => h x (List.mem_cons_of_mem _ hx)
    have h1 : accumulate (d :: rest) acc = accumulate rest (accStep d acc) := rfl
    rw [h1, ih _ hrest, accStep_arg d acc hd, List.map_cons, List.append_assoc]
    congr 1
    rw [← List.filter_append]
    rfl

/-- After a RETURN fragment the accumulator depends on the later fragments
only. -/
theorem accumulate_after_return (pre post : List (List Byte)) (r : List Byte)
    (acc : Option (List GoString)) (hr : hasKind 1 r = true) :
    accumulate (pre ++ r :: post) acc = accumulate post none := by
  unfold accumulate
  rw [List.foldl_append, List.foldl_cons]
  congr 1
  unfold hasKind at hr
  unfold accStep
  cases hf : fragmentOf r with
  | none => rw [hf] at hr; cases hr
  | some ev =>
    rw [hf] at hr
    have h1 : ev.Type_ = 1 := of_decide_eq_true hr
    simp [h1]

end

end Bpfd

namespace Bpfd

/-! ## The claims -/

set_option maxRecDepth 100000

section
variable {R : Type}

/-- C7: a decoded fragment whose kind is neither 0 (ARG) nor 1 (RETURN),
negative kinds included, makes `WatchEvent` return no event and no error,
leaves the sensor and its accumulator map as they were, and makes no call to
the rule engine or the process resolver. -/
theorem WatchEvent_other_kind_ignored (env : Env R) (rules : R) (data : List Byte)
    (p : bpfprogram) (ev : execEvent) (h : binaryRead data = .ok ev)
    (h0 : ev.Type_ ≠ 0) (h1 : ev.Type_ ≠ 1) :
    (WatchEvent env rules data p).outcome = .ret none none ∧
    (WatchEvent env rules data p).prog = p ∧
    (WatchEvent env rules data p).prog.argv = p.argv ∧
    (WatchEvent env rules data p).calls = [] := by
  rw [WatchEvent_other env rules data p ev h h0 h1]
  exact ⟨rfl, rfl, rfl, rfl⟩

/-- C8, amended: `WatchEvent` returns an error exactly when the buffer holds
fewer than 160 bytes, the size of the layout (4 + 4 + 16 + 4 + 128 + 4), which
is exactly when it does not decode; then no event is returned, the sensor is
unchanged and no collaborator is called. -/
theorem WatchEvent_error_iff (env : Env R) (rules : R) (data : List Byte)
    (p : bpfprogram) :
    ((∃ e msg, (WatchEvent env rules data p).outcome = .ret e (some msg)) ↔
      data.length < 160) ∧
    ((∃ msg, binaryRead data = .error msg) ↔ data.length < 160) ∧
    (data.length < 160 →
      ∃ msg, WatchEvent env rules data p = ⟨.ret none (some msg), p, []⟩) := by
  have hdec : (∃ msg, binaryRead data = .error msg) ↔ data.length < 160 := by
    rw [← fragmentOf_none]
    constructor
    · intro hn
      by_contra hl
      obtain ⟨ev, hev⟩ := (binaryRead_ok_iff data).2 (by omega)
      rw [(fragmentOf_some data ev).2 hev] at hn
      cases hn
    · intro hl
      cases hf : fragmentOf data with
      | none => rfl
      | some ev =>
        have := (binaryRead_ok_iff data).1 ⟨ev, (fragmentOf_some data ev).1 hf⟩
        omega
  refine ⟨?_, hdec, ?_⟩
  · constructor
    · rintro ⟨e, msg, hout⟩
      by_contra hl
      obtain ⟨ev, hev⟩ := (binaryRead_ok_iff data).2 (by omega)
      by_cases h0 : ev.Type_ = 0
      · rw [WatchEvent_arg env rules data p ev hev h0] at hout
        by_cases hn : payloadArg ev = []
        · simp [hn] at hout
        · simp [hn] at hout
      · by_cases h1 : ev.Type_ = 1
        · by_cases hz : (0 : Byte) ∈ ev.Comm
          · rw [WatchEvent_return env rules data p ev hev h1 hz] at hout
            unfold returnResult at hout
            by_cases hm : env.Match rules (eventData p ev (commandOf ev))
                (env.GetContainerRuntime ev.TGID ev.PID) = true
            · simp [hm] at hout
            · simp [hm] at hout
          · rw [WatchEvent_return_panicked env rules data p ev hev h1 hz] at hout
            cases hout
        · rw [WatchEvent_other env rules data p ev hev h0 h1] at hout
          simp at hout
    · intro hl
      obtain ⟨msg, hmsg⟩ := hdec.2 hl
      exact ⟨none, _, by rw [WatchEvent_error env rules data p msg hmsg]⟩
  · intro hl
    obtain ⟨msg, hmsg⟩ := hdec.2 hl
    exact ⟨_, WatchEvent_error env rules data p msg hmsg⟩

/-- C6, amended: a decoded ARG fragment makes `WatchEvent` return no event and
no error and call no collaborator. With `t` the payload up to its first zero
byte (the whole payload when there is none) without its surrounding white
space: if `t` is non-empty the accumulator of the fragment's process becomes
its previous contents (empty if absent) followed by `t`, and the accumulators
of the other processes stay; if `t` is empty the sensor is unchanged. -/
theorem WatchEvent_arg_appends (env : Env R) (rules : R) (data : List Byte)
    (p : bpfprogram) (ev : execEvent) (h : binaryRead data = .ok ev)
    (hk : ev.Type_ = 0) :
    (WatchEvent env rules data p).outcome = .ret none none ∧
    (WatchEvent env rules data p).calls = [] ∧
    payloadArg ev = TrimSpace (ev.Argv.takeWhile (fun b => decide (b ≠ 0))) ∧
    (payloadArg ev ≠ [] →
      (WatchEvent env rules data p).prog.argv.get? ev.PID =
        some (p.argv.getD ev.PID [] ++ [payloadArg ev]) ∧
      ∀ q, q ≠ ev.PID →
        (WatchEvent env rules data p).prog.argv.get? q = p.argv.get? q) ∧
    (payloadArg ev = [] → (WatchEvent env rules data p).prog = p) := by
  have hf := (fragmentOf_some data ev).2 h
  refine ⟨?_, ?_, rfl, ?_, ?_⟩
  · rw [WatchEvent_arg env rules data p ev h hk]
    by_cases hn : payloadArg ev = []
    · simp [hn]
    · simp [hn]
  · rw [WatchEvent_arg env rules data p ev h hk]
    by_cases hn : payloadArg ev = []
    · simp [hn]
    · simp [hn]
  · intro hn
    constructor
    · rw [WatchEvent_arg env rules data p ev h hk]
      simp only [ne_eq, hn, not_false_eq_true, if_true]
      exact GoMap.get?_set_self _ _ _
    · intro q hq
      exact WatchEvent_get?_of_ne env rules data p ev q hf hq
  · intro hn
    rw [WatchEvent_arg env rules data p ev h hk]
    simp [hn]

/-- C5, amended: on a decoded RETURN fragment on which the rules match,
`WatchEvent` returns an event with the fragment's process id and parent id,
"command" equal to the bytes of the command field before its first zero byte
with the surrounding white space removed, "returnval" the decimal rendering
of the signed return value, and "type" equal to "1"; the accumulator of the
process is absent afterwards. -/
theorem WatchEvent_return_event (env : Env R) (rules : R) (data : List Byte)
    (p : bpfprogram) (ev : execEvent) (h : binaryRead data = .ok ev)
    (hk : ev.Type_ = 1) (hz : (0 : Byte) ∈ ev.Comm)
    (hm : env.Match rules (eventData p ev (commandOf ev))
      (env.GetContainerRuntime ev.TGID ev.PID) = true) :
    ∃ e, (WatchEvent env rules data p).outcome = .ret (some e) none ∧
      e.PID = ev.PID ∧ e.TGID = ev.TGID ∧
      e.Data.get? "command" =
        some (TrimSpace (ev.Comm.takeWhile (fun b => decide (b ≠ 0)))) ∧
      e.Data.get? "returnval" = some (Sprintf_d ev.ReturnValue) ∧
      e.Data.get? "type" = some (str "1") ∧
      e.Data.get? "argv" = some (Join (p.argv.getD ev.PID []) (str " ")) ∧
      (WatchEvent env rules data p).prog.argv.get? ev.PID = none := by
  rw [WatchEvent_return env rules data p ev h hk hz,
    returnResult_matched env rules ev p hm]
  have hd := eventData_get? p ev (commandOf ev)
  have hg := (matched_get? (eventData p ev (commandOf ev))
    (env.GetContainerRuntime ev.TGID ev.PID) (env.GetContainerID ev.PID)).2.2
  refine ⟨_, rfl, rfl, rfl, ?_, ?_, ?_, ?_, ?_⟩
  · rw [hg "command" (by decide) (by decide)]; exact hd.2.1
  · rw [hg "returnval" (by decide) (by decide)]; exact hd.2.2.1
  · rw [hg "type" (by decide) (by decide), hd.2.2.2, hk]; rfl
  · rw [hg "argv" (by decide) (by decide)]; exact hd.1
  · exact GoMap.get?_delete_self _ _

theorem fragmentsOf_of_all (pid : Nat) (args : Stream R)
    (h : ∀ a ∈ args, hasPid pid a.2 = true) :
    fragmentsOf pid args = args.map (fun a => a.2) := by
  unfold fragmentsOf
  rw [List.filter_eq_self]
  intro d hd
  obtain ⟨a, ha, rfl⟩ := List.mem_map.1 hd
  exact h a ha

/-- C1, amended: for a process without pending accumulator, ARG fragments of
the process followed by one RETURN fragment of the process, handed to
`WatchEvent` in order: the ARG calls all return; the event produced on the
RETURN fragment has as "argv" the non-empty trimmed payloads of the ARG
fragments joined by single spaces in arrival order; the RETURN call returns no
error; an event is produced when the command field holds a zero byte and the
rules match; with no ARG fragment the argv is the empty string. -/
theorem WatchEvent_argv_joined (rules : R) (args : Stream R) (env : Env R)
    (ret : List Byte) (p : bpfprogram) (pid : Nat) (rv : execEvent)
    (hfresh : p.argv.get? pid = none)
    (hargs : ∀ a ∈ args, hasKind 0 a.2 = true ∧ hasPid pid a.2 = true)
    (hret : binaryRead ret = .ok rv) (hk : rv.Type_ = 1) (hpid : rv.PID = pid) :
    ∃ p1, WatchEvents rules args p = some p1 ∧
      (∀ e err, (WatchEvent env rules ret p1).outcome = .ret (some e) err →
        e.Data.get? "argv" =
          some (Join ((args.map (fun a => fragmentArg a.2)).filter
            (fun t => decide (t ≠ []))) (str " "))) ∧
      (∀ e err, (WatchEvent env rules ret p1).outcome = .ret e err → err = none) ∧
      ((0 : Byte) ∈ rv.Comm →
        env.Match rules (eventData p1 rv (commandOf rv))
          (env.GetContainerRuntime rv.TGID rv.PID) = true →
        ∃ e, (WatchEvent env rules ret p1).outcome = .ret (some e) none) ∧
      (args = [] →
        Join ((args.map (fun a => fragmentArg a.2)).filter
          (fun t => decide (t ≠ []))) (str " ") = []) := by
  have hkind : ∀ d ∈ args.map (fun a => a.2), hasKind 0 d = true := by
    intro d hd
    obtain ⟨a, ha, rfl⟩ := List.mem_map.1 hd
    exact (hargs a ha).1
  have hdone : ∃ p1, WatchEvents rules args p = some p1 := by
    apply WatchEvents_completes
    intro x hx ev hev h1
    have h0 := (hargs x hx).1
    unfold hasKind at h0
    rw [hev] at h0
    have h2 : ev.Type_ = 0 := of_decide_eq_true h0
    rw [h2] at h1
    cases h1
  obtain ⟨p1, hp1⟩ := hdone
  have hacc : p1.argv.getD rv.PID [] =
      (args.map (fun a => fragmentArg a.2)).filter (fun t => decide (t ≠ [])) := by
    have h1 := WatchEvents_get? rules args p p1 pid hp1
    rw [fragmentsOf_of_all pid args (fun a ha => (hargs a ha).2), hfresh] at h1
    have h2 := accumulate_args (args.map (fun a => a.2)) none hkind
    rw [hpid]
    unfold GoMap.getD
    rw [h1, h2, List.map_map]
    rfl
  have hd := (eventData_get? p1 rv (commandOf rv)).1
  rw [hacc] at hd
  refine ⟨p1, hp1, ?_, ?_, ?_, ?_⟩
  · intro e err hout
    by_cases hz : (0 : Byte) ∈ rv.Comm
    · rw [WatchEvent_return env rules ret p1 rv hret hk hz] at hout
      cases hm : env.Match rules (eventData p1 rv (commandOf rv))
          (env.GetContainerRuntime rv.TGID rv.PID) with
      | false =>
        rw [returnResult_unmatched env rules rv p1 hm] at hout
        injection hout with h1 h2
        cases h1
      | true =>
        rw [returnResult_matched env rules rv p1 hm] at hout
        injection hout with h1 h2
        injection h1 with h1
        subst h1
        rw [(matched_get? _ _ _).2.2 "argv" (by decide) (by decide)]
        exact hd
    · rw [WatchEvent_return_panicked env rules ret p1 rv hret hk hz] at hout
      cases hout
  · intro e err hout
    by_cases hz : (0 : Byte) ∈ rv.Comm
    · rw [WatchEvent_return env rules ret p1 rv hret hk hz] at hout
      cases hm : env.Match rules (eventData p1 rv (commandOf rv))
          (env.GetContainerRuntime rv.TGID rv.PID) with
      | false =>
        rw [returnResult_unmatched env rules rv p1 hm] at hout
        injection hout with h1 h2
        exact h2.symm
      | true =>
        rw [returnResult_matched env rules rv p1 hm] at hout
        injection hout with h1 h2
        exact h2.symm
    · rw [WatchEvent_return_panicked env rules ret p1 rv hret hk hz] at hout
      cases hout
  · intro hz hm
    rw [WatchEvent_return env rules ret p1 rv hret hk hz,
      returnResult_matched env rules rv p1 hm]
    exact ⟨_, rfl⟩
  · intro hnil
    rw [hnil]
    rfl

theorem hasPid_unique (a b : Nat) (d : List Byte) (ha : hasPid a d = true)
    (hb : hasPid b d = true) : a = b := by
  unfold hasPid at ha hb
  cases hf : fragmentOf d with
  | none => rw [hf] at ha; cases ha
  | some ev =>
    rw [hf] at ha hb
    exact (of_decide_eq_true ha).symm.trans (of_decide_eq_true hb)

/-- C3: starting from an empty accumulator map, for a stream made of one
complete (ARG*, RETURN) sequence for each of N distinct process ids, in any
interleaving: once `WatchEvent` has consumed the whole stream the accumulator
map is empty (size 0), whatever the rules and whatever the rule engine
answers; and the whole stream is consumed when every RETURN fragment has a
zero byte in its command field, as the kernel side submits it. -/
theorem WatchEvents_complete_sequences (rules : R) (pids : List Nat)
    (stream : Stream R) (p : bpfprogram) (hp : p.argv = [])
    (h : CompleteSequences pids stream) :
    (∀ p1, WatchEvents rules stream p = some p1 → p1.argv = [] ∧ p1.argv.len = 0) ∧
    ((∀ x ∈ stream, ∀ ev, fragmentOf x.2 = some ev → ev.Type_ = 1 →
        (0 : Byte) ∈ ev.Comm) →
      ∃ p1, WatchEvents rules stream p = some p1 ∧ p1.argv.len = 0) := by
  obtain ⟨_, hall, hcomplete⟩ := h
  have hempty : ∀ p1, WatchEvents rules stream p = some p1 → p1.argv = [] := by
    intro p1 hrun
    apply GoMap.eq_nil_of_get?_none
    intro q
    rw [WatchEvents_get? rules stream p p1 q hrun, hp]
    by_cases hq : q ∈ pids
    · have hc := (List.all_eq_true.1 hcomplete) q hq
      unfold isCompleteSeq at hc
      cases hrev : (fragmentsOf q stream).reverse with
      | nil => rw [hrev] at hc; cases hc
      | cons r args =>
        rw [hrev] at hc
        have hr : hasKind 1 r = true := by
          rw [Bool.and_eq_true] at hc
          exact hc.1
        have hfr : fragmentsOf q stream = args.reverse ++ r :: [] := by
          have := congrArg List.reverse hrev
          rw [List.reverse_reverse] at this
          rw [this, List.reverse_cons]
        rw [hfr, accumulate_after_return _ _ _ _ hr]
        rfl
    · have hnone : fragmentsOf q stream = [] := by
        unfold fragmentsOf
        rw [List.filter_eq_nil_iff]
        intro d hd hqd
        obtain ⟨x, hx, rfl⟩ := List.mem_map.1 hd
        have h1 := (List.all_eq_true.1 hall) x hx
        obtain ⟨pid, hpid, h2⟩ := List.any_eq_true.1 h1
        have := hasPid_unique q pid x.2 hqd h2
        exact hq (this ▸ hpid)
      rw [hnone]
      rfl
  refine ⟨fun p1 hrun => ⟨hempty p1 hrun, by rw [hempty p1 hrun]; rfl⟩, ?_⟩
  intro hz
  obtain ⟨p1, hrun⟩ := WatchEvents_completes rules stream p hz
  exact ⟨p1, hrun, by rw [hempty p1 hrun]; rfl⟩

/-- C10: one call of `WatchEvent` on a decoded fragment of process `p` leaves
the accumulator of every other process as it was; hence, after any stream
that has been consumed, the accumulator of a process is a function of the
process's own fragments alone, and of those after its last RETURN fragment
when there is one; and on the next RETURN fragment of the process the "argv"
attribute of the data handed to the rule engine and of the event returned is
the join of that accumulator, so the outcome and the calls of that call are
the same after any other stream with the same fragments of the process,
however the fragments of other processes are interleaved. -/
theorem WatchEvent_frame (rules : R) (stream : Stream R) (p p1 : bpfprogram)
    (pid : Nat) (h : WatchEvents rules stream p = some p1) :
    (∀ (env : Env R) (data : List Byte) (s : bpfprogram) (ev : execEvent) (q : Nat),
      fragmentOf data = some ev → q ≠ ev.PID →
        (WatchEvent env rules data s).prog.argv.get? q = s.argv.get? q) ∧
    p1.argv.get? pid = accumulate (fragmentsOf pid stream) (p.argv.get? pid) ∧
    (∀ (rv : execEvent) (c : GoString), rv.PID = pid →
      (eventData p1 rv c).get? "argv" =
        some (Join ((accumulate (fragmentsOf pid stream) (p.argv.get? pid)).getD [])
          (str " "))) ∧
    (∀ pre r post, fragmentsOf pid stream = pre ++ r :: post → hasKind 1 r = true →
      p1.argv.get? pid = accumulate post none) ∧
    (∀ (env : Env R) (ret : List Byte) (rv : execEvent),
      binaryRead ret = .ok rv → rv.Type_ = 1 → rv.PID = pid →
      (∀ d rt, Call.Match d rt ∈ (WatchEvent env rules ret p1).calls →
        d.get? "argv" =
          some (Join ((accumulate (fragmentsOf pid stream) (p.argv.get? pid)).getD [])
            (str " "))) ∧
      (∀ e err, (WatchEvent env rules ret p1).outcome = .ret (some e) err →
        e.Data.get? "argv" =
          some (Join ((accumulate (fragmentsOf pid stream) (p.argv.get? pid)).getD [])
            (str " "))) ∧
      ((0 : Byte) ∈ rv.Comm →
        ∃ d rt, Call.Match d rt ∈ (WatchEvent env rules ret p1).calls)) ∧
    (∀ (rules2 : R) (stream2 : Stream R) (p2 q2 : bpfprogram),
      WatchEvents rules2 stream2 p2 = some q2 →
      fragmentsOf pid stream2 = fragmentsOf pid stream →
      p2.argv.get? pid = p.argv.get? pid →
      ∀ (env : Env R) (rules3 : R) (ret : List Byte) (rv : execEvent),
        binaryRead ret = .ok rv → rv.PID = pid →
        (WatchEvent env rules3 ret q2).outcome = (WatchEvent env rules3 ret p1).outcome ∧
        (WatchEvent env rules3 ret q2).calls = (WatchEvent env rules3 ret p1).calls) := by
  have hacc := WatchEvents_get? rules stream p p1 pid h
  have hdata : ∀ (rv : execEvent) (c : GoString), rv.PID = pid →
      (eventData p1 rv c).get? "argv" =
        some (Join ((accumulate (fragmentsOf pid stream) (p.argv.get? pid)).getD [])
          (str " ")) := by
    intro rv c hpid
    rw [(eventData_get? p1 rv c).1, hpid]
    unfold GoMap.getD
    rw [hacc]
  refine ⟨?_, hacc, hdata, ?_, ?_, ?_⟩
  · intro env data s ev q hf hq
    exact WatchEvent_get?_of_ne env rules data s ev q hf hq
  · intro pre r post hsplit hr
    rw [hacc, hsplit, accumulate_after_return _ _ _ _ hr]
  · intro env ret rv hret hk hpid
    by_cases hz : (0 : Byte) ∈ rv.Comm
    · rw [WatchEvent_return env rules ret p1 rv hret hk hz]
      cases hm : env.Match rules (eventData p1 rv (commandOf rv))
          (env.GetContainerRuntime rv.TGID rv.PID) with
      | false =>
        rw [returnResult_unmatched env rules rv p1 hm]
        refine ⟨?_, ?_, fun _ => ⟨_, _, List.mem_cons_of_mem _ (List.mem_cons_self _ _)⟩⟩
        · intro d rt hmem
          simp only [List.mem_cons, List.mem_singleton, List.not_mem_nil, or_false,
            false_or, reduceCtorEq, Call.Match.injEq] at hmem
          rw [hmem.1]
          exact hdata rv _ hpid
        · intro e err hout
          injection hout with h1 h2
          cases h1
      | true =>
        rw [returnResult_matched env rules rv p1 hm]
        refine ⟨?_, ?_, fun _ => ⟨_, _, List.mem_cons_of_mem _ (List.mem_cons_self _ _)⟩⟩
        · intro d rt hmem
          simp only [List.mem_cons, List.mem_singleton, List.not_mem_nil, or_false,
            false_or, reduceCtorEq, Call.Match.injEq] at hmem
          rw [hmem.1]
          exact hdata rv _ hpid
        · intro e err hout
          injection hout with h1 h2
          injection h1 with h1
          subst h1
          rw [(matched_get? _ _ _).2.2 "argv" (by decide) (by decide)]
          exact hdata rv _ hpid
    · rw [WatchEvent_return_panicked env rules ret p1 rv hret hk hz]
      exact ⟨fun d rt hmem => (by cases hmem), fun e err hout => (by cases hout),
        fun hz1 => absurd hz1 hz⟩
  · intro rules2 stream2 p2 q2 h2 hfr hp2 env rules3 ret rv hret hpid
    have hacc2 := WatchEvents_get? rules2 stream2 p2 q2 pid h2
    apply WatchEvent_congr_own env rules3 ret q2 p1 rv hret
    rw [hpid, hacc2, hacc, hfr, hp2]

/-- C2, amended: for every buffer whose RETURN fragment, if it is one, has a
zero byte in its command field (the C string `WatchEvent` expects there), one
call of `WatchEvent` does not panic and ends in exactly one of three
outcomes: no event and no error, an event and no error, or an error and no
event, the last one exactly when the buffer holds fewer than 160 bytes. An ARG
fragment never makes the call abort, also when its payload holds no zero
byte. -/
theorem WatchEvent_completes (env : Env R) (rules : R) (data : List Byte)
    (p : bpfprogram)
    (hcomm : ∀ ev, binaryRead data = .ok ev → ev.Type_ = 1 → (0 : Byte) ∈ ev.Comm) :
    (WatchEvent env rules data p).outcome ≠ .panicked ∧
    ((WatchEvent env rules data p).outcome = .ret none none ∨
      (∃ e, (WatchEvent env rules data p).outcome = .ret (some e) none) ∨
      (∃ msg, (WatchEvent env rules data p).outcome = .ret none (some msg))) ∧
    (∀ e err, (WatchEvent env rules data p).outcome = .ret (some e) err → err = none) ∧
    ((∃ msg, (WatchEvent env rules data p).outcome = .ret none (some msg)) ↔
      data.length < 160) ∧
    (∀ ev, binaryRead data = .ok ev → ev.Type_ = 0 →
      (WatchEvent env rules data p).outcome = .ret none none) := by
  have hnp : (WatchEvent env rules data p).outcome ≠ .panicked := by
    intro hpan
    obtain ⟨ev, h1, h2, h3⟩ := (WatchEvent_panicked_iff env rules data p).1 hpan
    exact h3 (hcomm ev ((fragmentOf_some data ev).1 h1) h2)
  have hout := WatchEvent_outcomes env rules data p
  refine ⟨hnp, ?_, ?_, ?_, ?_⟩
  · rcases hout with h1 | h1
    · exact absurd h1 hnp
    · exact h1
  · intro e err he
    rcases hout with h1 | h1 | ⟨e1, h1⟩ | ⟨msg, h1⟩
    · exact absurd h1 hnp
    · rw [h1] at he; cases he
    · rw [h1] at he
      injection he with _ h2
      exact h2.symm
    · rw [h1] at he; cases he
  · constructor
    · rintro ⟨msg, hmsg⟩
      by_contra hl
      obtain ⟨ev, hev⟩ := (binaryRead_ok_iff data).2 (by omega)
      by_cases h0 : ev.Type_ = 0
      · rw [WatchEvent_arg env rules data p ev hev h0] at hmsg
        by_cases hn : payloadArg ev = []
        · simp [hn] at hmsg
        · simp [hn] at hmsg
      · by_cases h1 : ev.Type_ = 1
        · rw [WatchEvent_return env rules data p ev hev h1 (hcomm ev hev h1)] at hmsg
          cases hm : env.Match rules (eventData p ev (commandOf ev))
              (env.GetContainerRuntime ev.TGID ev.PID) with
          | false =>
            rw [returnResult_unmatched env rules ev p hm] at hmsg
            cases hmsg
          | true =>
            rw [returnResult_matched env rules ev p hm] at hmsg
            cases hmsg
        · rw [WatchEvent_other env rules data p ev hev h0 h1] at hmsg
          cases hmsg
    · intro hl
      cases hb : binaryRead data with
      | error msg =>
        exact ⟨_, by rw [WatchEvent_error env rules data p msg hb]⟩
      | ok ev =>
        have := (binaryRead_ok_iff data).1 ⟨ev, hb⟩
        omega
  · intro ev hev h0
    rw [WatchEvent_arg env rules data p ev hev h0]
    split <;> rfl

/-- C4: on a decoded RETURN fragment (its command field a C string, with a
zero byte), `WatchEvent` resolves the runtime, hands the four attributes
argv, command, returnval and type together with the runtime to the rule
engine, and returns an event exactly when the rule engine reports a match; the
event then holds the four attributes and in addition "runtime" and
"container_id" as resolved; without a match the result is no event and no
error and the container id is not resolved. -/
theorem WatchEvent_return_iff_match (env : Env R) (rules : R) (data : List Byte)
    (p : bpfprogram) (ev : execEvent) (h : binaryRead data = .ok ev)
    (hk : ev.Type_ = 1) (hz : (0 : Byte) ∈ ev.Comm) :
    (eventData p ev (commandOf ev)).map (fun x => x.1) =
      ["argv", "command", "returnval", "type"] ∧
    (WatchEvent env rules data p).calls =
      [.GetContainerRuntime ev.TGID ev.PID,
       .Match (eventData p ev (commandOf ev)) (env.GetContainerRuntime ev.TGID ev.PID)] ++
      (if env.Match rules (eventData p ev (commandOf ev))
          (env.GetContainerRuntime ev.TGID ev.PID) = true
        then [.GetContainerID ev.PID] else []) ∧
    ((∃ e err, (WatchEvent env rules data p).outcome = .ret (some e) err) ↔
      env.Match rules (eventData p ev (commandOf ev))
        (env.GetContainerRuntime ev.TGID ev.PID) = true) ∧
    (∀ e err, (WatchEvent env rules data p).outcome = .ret (some e) err →
      err = none ∧
      e.Data.get? "runtime" = some (env.GetContainerRuntime ev.TGID ev.PID) ∧
      e.Data.get? "container_id" = some (env.GetContainerID ev.PID) ∧
      ∀ k, k ≠ "runtime" → k ≠ "container_id" →
        e.Data.get? k = (eventData p ev (commandOf ev)).get? k) ∧
    (env.Match rules (eventData p ev (commandOf ev))
        (env.GetContainerRuntime ev.TGID ev.PID) = false →
      (WatchEvent env rules data p).outcome = .ret none none ∧
      ∀ q, Call.GetContainerID q ∉ (WatchEvent env rules data p).calls) := by
  rw [WatchEvent_return env rules data p ev h hk hz]
  refine ⟨rfl, ?_⟩
  cases hm : env.Match rules (eventData p ev (commandOf ev))
      (env.GetContainerRuntime ev.TGID ev.PID) with
  | false =>
    rw [returnResult_unmatched env rules ev p hm]
    simp
  | true =>
    rw [returnResult_matched env rules ev p hm]
    refine ⟨by simp, by simp, ?_, by simp⟩
    intro e err hout
    injection hout with h1 h2
    injection h1 with h1
    subst h1
    exact ⟨h2.symm, (matched_get? _ _ _).1, (matched_get? _ _ _).2.1,
      (matched_get? _ _ _).2.2⟩

/-- C9, amended: `Unload` stops the perf map exactly when there is one and
closes the module exactly when there is one, in that order, and leaves the
fields of the sensor as they are; so after a partial `Load` it touches only
what exists, on a sensor with neither it does nothing, and a second `Unload`
right after the first repeats the calls of the first. `Load` sets the module
first and the perf map last. -/
theorem Unload_calls (p : bpfprogram) :
    (Unload p).1 = p ∧
    (Unload p).2 = p.perfMap.toList.map Call.Stop ++ p.module.toList.map Call.Close ∧
    (∀ pm, Call.Stop pm ∈ (Unload p).2 ↔ p.perfMap = some pm) ∧
    (∀ m, Call.Close m ∈ (Unload p).2 ↔ p.module = some m) ∧
    (Unload (Unload p).1).2 = (Unload p).2 ∧
    (p.perfMap = none → p.module = none →
      (Unload p).2 = [] ∧ (Unload (Unload p).1).2 = []) ∧
    (∀ bcc : Bcc, (Load bcc p).1.module = bcc.NewModule ∧
      ((Load bcc p).1.perfMap = p.perfMap ∨
        (Load bcc p).1.perfMap = bcc.InitPerfMap.1)) := by
  obtain ⟨m, pm, a⟩ := p
  refine ⟨rfl, ?_, ?_, ?_, rfl, ?_, ?_⟩
  · cases m <;> cases pm <;> rfl
  · intro x
    cases m <;> cases pm <;> simp [Unload, eq_comm]
  · intro x
    cases m <;> cases pm <;> simp [Unload, eq_comm]
  · intro h1 h2
    simp only at h1 h2
    subst h1 h2
    exact ⟨rfl, rfl⟩
  · intro bcc
    unfold Load
    dsimp only
    split
    · exact ⟨rfl, Or.inl rfl⟩
    · split
      · exact ⟨rfl, Or.inl rfl⟩
      · split
        · exact ⟨rfl, Or.inl rfl⟩
        · split
          · exact ⟨rfl, Or.inl rfl⟩
          · split
            · exact ⟨rfl, Or.inr rfl⟩
            · exact ⟨rfl, Or.inr rfl⟩

end

/-! ### Concrete instances -/

/-- Witness of C7: a fragment of kind -1 with a non-empty payload, received
while process 7 has pending arguments, is ignored. -/
theorem WatchEvent_other_kind_ignored_witness :
    binaryRead (data_t 7 1 (str "sh") 0xFFFFFFFF (str "-c") 0) =
      .ok ⟨7, 1, charArray 16 (str "sh"), -1, charArray 128 (str "-c"), 0⟩ ∧
    (WatchEvent exampleEnv [("command", str "sh")]
        (data_t 7 1 (str "sh") 0xFFFFFFFF (str "-c") 0)
        ⟨none, none, [(7, [str "sh"])]⟩).outcome = .ret none none ∧
    (WatchEvent exampleEnv [("command", str "sh")]
        (data_t 7 1 (str "sh") 0xFFFFFFFF (str "-c") 0)
        ⟨none, none, [(7, [str "sh"])]⟩).prog = ⟨none, none, [(7, [str "sh"])]⟩ ∧
    (WatchEvent exampleEnv [("command", str "sh")]
        (data_t 7 1 (str "sh") 0xFFFFFFFF (str "-c") 0)
        ⟨none, none, [(7, [str "sh"])]⟩).calls = [] :=
  have h := WatchEvent_other_kind_ignored exampleEnv [("command", str "sh")]
    (data_t 7 1 (str "sh") 0xFFFFFFFF (str "-c") 0) ⟨none, none, [(7, [str "sh"])]⟩
    ⟨7, 1, charArray 16 (str "sh"), -1, charArray 128 (str "-c"), 0⟩
    (by decide) (by decide) (by decide)
  ⟨by decide, h.1, h.2.1, h.2.2.2⟩

/-- Counterexample to C8 as stated: a buffer of 160 bytes, fewer than 164,
decodes, and `WatchEvent` returns no error on it. -/
theorem WatchEvent_error_iff_164_counterexample :
    (argFragment 7 (str "sh") (str "-c")).length = 160 ∧
    (argFragment 7 (str "sh") (str "-c")).length < 164 ∧
    (WatchEvent exampleEnv [] (argFragment 7 (str "sh") (str "-c")) Init).outcome =
      .ret none none ∧
    ¬ ((∃ e msg, (WatchEvent exampleEnv [] (argFragment 7 (str "sh") (str "-c"))
          Init).outcome = .ret e (some msg)) ↔
        (argFragment 7 (str "sh") (str "-c")).length < 164) := by
  have h1 : (WatchEvent exampleEnv [] (argFragment 7 (str "sh") (str "-c")) Init).outcome =
      .ret none none := by decide
  refine ⟨by decide, by decide, h1, ?_⟩
  intro hiff
  obtain ⟨e, msg, hout⟩ := hiff.2 (by decide)
  rw [h1] at hout
  cases hout

/-- Counterexample to C6 as stated: the payload "ab", zero, "cd", zeros holds
"ab\0cd" once its trailing zero bytes are removed, yet `WatchEvent` appends
"ab". -/
theorem WatchEvent_arg_trailing_zeros_counterexample :
    binaryRead (argFragment 7 (str "sh") (str "ab" ++ [0] ++ str "cd")) =
      .ok ⟨7, 1, charArray 16 (str "sh"), 0,
        charArray 128 (str "ab" ++ [0] ++ str "cd"), 0⟩ ∧
    claimedArg ⟨7, 1, charArray 16 (str "sh"), 0,
        charArray 128 (str "ab" ++ [0] ++ str "cd"), 0⟩ = str "ab" ++ [0] ++ str "cd" ∧
    (WatchEvent exampleEnv [] (argFragment 7 (str "sh") (str "ab" ++ [0] ++ str "cd"))
        Init).prog.argv.get? 7 = some [str "ab"] ∧
    (WatchEvent exampleEnv [] (argFragment 7 (str "sh") (str "ab" ++ [0] ++ str "cd"))
        Init).prog.argv.get? 7 ≠
      some (Init.argv.getD 7 [] ++ [claimedArg ⟨7, 1, charArray 16 (str "sh"), 0,
        charArray 128 (str "ab" ++ [0] ++ str "cd"), 0⟩]) := by
  decide

/-- Witness of C6: the same fragment, received while process 7 has one pending
argument, appends "ab" after it. -/
theorem WatchEvent_arg_appends_witness :
    binaryRead (argFragment 7 (str "sh") (str "ab" ++ [0] ++ str "cd")) =
      .ok ⟨7, 1, charArray 16 (str "sh"), 0,
        charArray 128 (str "ab" ++ [0] ++ str "cd"), 0⟩ ∧
    payloadArg ⟨7, 1, charArray 16 (str "sh"), 0,
        charArray 128 (str "ab" ++ [0] ++ str "cd"), 0⟩ = str "ab" ∧
    (WatchEvent exampleEnv [] (argFragment 7 (str "sh") (str "ab" ++ [0] ++ str "cd"))
        ⟨none, none, [(7, [str "sh"])]⟩).outcome = .ret none none ∧
    (WatchEvent exampleEnv [] (argFragment 7 (str "sh") (str "ab" ++ [0] ++ str "cd"))
        ⟨none, none, [(7, [str "sh"])]⟩).prog.argv.get? 7 = some [str "sh", str "ab"] :=
  have h := WatchEvent_arg_appends exampleEnv []
    (argFragment 7 (str "sh") (str "ab" ++ [0] ++ str "cd"))
    ⟨none, none, [(7, [str "sh"])]⟩
    ⟨7, 1, charArray 16 (str "sh"), 0, charArray 128 (str "ab" ++ [0] ++ str "cd"), 0⟩
    (by decide) (by decide)
  ⟨by decide, by decide, h.1, (h.2.2.2.1 (by decide)).1.trans (by decide)⟩

/-- Counterexample to C9 as stated: on a loaded sensor the second `Unload`
stops the perf map and closes the module again. -/
theorem Unload_twice_counterexample :
    Load okBcc Init = (loadedSensor, none) ∧
    (Unload loadedSensor).2 = [Call.Stop ⟨2⟩, Call.Close ⟨1⟩] ∧
    (Unload (Unload loadedSensor).1).2 = [Call.Stop ⟨2⟩, Call.Close ⟨1⟩] ∧
    (Unload (Unload loadedSensor).1).2 ≠ [] ∧
    (Unload loadedSensor).2 ++ (Unload (Unload loadedSensor).1).2 ≠
      (Unload loadedSensor).2 := by
  decide

/-- Counterexample to C5 as stated: the command field " ls" gives the
attribute "ls", not the bytes before the first zero byte. -/
theorem WatchEvent_command_counterexample :
    ∃ ev e, binaryRead paddedReturn = .ok ev ∧ ev.Type_ = 1 ∧
      ev.Comm.takeWhile (fun b => decide (b ≠ 0)) = str " ls" ∧
      (WatchEvent exampleEnv lsRules paddedReturn Init).outcome = .ret (some e) none ∧
      e.Data.get? "command" = some (str "ls") ∧
      e.Data.get? "command" ≠ some (ev.Comm.takeWhile (fun b => decide (b ≠ 0))) :=
  ⟨⟨7, 1, charArray 16 (str " ls"), 1, charArray 128 [], 0⟩,
   ⟨7, 1, [("argv", []), ("command", str "ls"), ("returnval", str "0"),
     ("type", str "1"), ("runtime", str "not-found"), ("container_id", [])]⟩,
   by decide⟩

/-- Witness of C5: ARG "/bin/ls", ARG "-la", RETURN (comm "ls", retval 0) for
process 100. With the rule command == "ls" the event carries argv
"/bin/ls -la", command "ls" and returnval "0"; with the rule command == "cat"
there is no event; the accumulator of process 100 is absent afterwards in
both cases. -/
theorem WatchEvent_return_event_witness :
    WatchEvents lsRules lsArgs Init =
      some ⟨none, none, [(100, [str "/bin/ls", str "-la"])]⟩ ∧
    (∃ e, (WatchEvent exampleEnv lsRules lsReturn
          ⟨none, none, [(100, [str "/bin/ls", str "-la"])]⟩).outcome =
        .ret (some e) none ∧
      e.PID = 100 ∧ e.TGID = 1 ∧ e.Data.get? "command" = some (str "ls") ∧
      e.Data.get? "returnval" = some (str "0") ∧ e.Data.get? "type" = some (str "1") ∧
      e.Data.get? "argv" = some (str "/bin/ls -la")) ∧
    (WatchEvent exampleEnv lsRules lsReturn
        ⟨none, none, [(100, [str "/bin/ls", str "-la"])]⟩).prog.argv.get? 100 = none ∧
    (WatchEvent exampleEnv [("command", str "cat")] lsReturn
        ⟨none, none, [(100, [str "/bin/ls", str "-la"])]⟩).outcome = .ret none none ∧
    (WatchEvent exampleEnv [("command", str "cat")] lsReturn
        ⟨none, none, [(100, [str "/bin/ls", str "-la"])]⟩).prog.argv.get? 100 = none := by
  obtain ⟨e, h1, h2, h3, h4, h5, h6, h7, h8⟩ :=
    WatchEvent_return_event exampleEnv lsRules lsReturn
      ⟨none, none, [(100, [str "/bin/ls", str "-la"])]⟩
      ⟨100, 1, charArray 16 (str "ls"), 1, charArray 128 [], 0⟩
      (by decide) (by decide) (by decide) (by decide)
  exact ⟨by decide,
    ⟨e, h1, h2, h3, h4.trans (by decide), h5.trans (by decide), h6,
      h7.trans (by decide)⟩,
    h8, by decide, by decide⟩

/-- Counterexample to C1 as stated: the ARG payloads "a", "" and "b" joined by
single spaces give "a  b", yet the event carries "a b". -/
theorem WatchEvent_argv_counterexample :
    ∃ p1 e, WatchEvents lsRules gapArgs Init = some p1 ∧
      (WatchEvent exampleEnv lsRules gapReturn p1).outcome = .ret (some e) none ∧
      gapArgs.map (fun a => fragmentArg a.2) = [str "a", [], str "b"] ∧
      Join (gapArgs.map (fun a => fragmentArg a.2)) (str " ") = str "a  b" ∧
      e.Data.get? "argv" = some (str "a b") ∧
      e.Data.get? "argv" ≠
        some (Join (gapArgs.map (fun a => fragmentArg a.2)) (str " ")) :=
  ⟨⟨none, none, [(7, [str "a", str "b"])]⟩,
   ⟨7, 1, [("argv", str "a b"), ("command", str "ls"), ("returnval", str "-2"),
     ("type", str "1"), ("runtime", str "not-found"), ("container_id", [])]⟩,
   by decide⟩

/-- Witness of C1: the same fragments; the event carries "a b". -/
theorem WatchEvent_argv_joined_witness :
    ∃ p1 e, WatchEvents lsRules gapArgs Init = some p1 ∧
      (WatchEvent exampleEnv lsRules gapReturn p1).outcome = .ret (some e) none ∧
      e.Data.get? "argv" = some (str "a b") := by
  have hc : WatchEvents lsRules gapArgs Init =
      some ⟨none, none, [(7, [str "a", str "b"])]⟩ := by decide
  obtain ⟨p1, hp1, harg, _, hprod, _⟩ :=
    WatchEvent_argv_joined lsRules gapArgs exampleEnv gapReturn Init 7
      ⟨7, 1, charArray 16 (str "ls"), 1, charArray 128 [], -2⟩
      (by decide) (by decide) (by decide) (by decide) (by decide)
  have hp : p1 = ⟨none, none, [(7, [str "a", str "b"])]⟩ :=
    Option.some.inj (hp1.symm.trans hc)
  subst hp
  obtain ⟨e, he⟩ := hprod (by decide) (by decide)
  exact ⟨_, e, hc, he, (harg e none he).trans (by decide)⟩

/-- Witness of C3: the sequences of processes 100 and 200, interleaved, one
matched by the rules and one not, leave an empty accumulator map. -/
theorem WatchEvents_complete_sequences_witness :
    CompleteSequences [100, 200] twoProcesses ∧
    ∃ p1, WatchEvents lsRules twoProcesses Init = some p1 ∧
      p1.argv = [] ∧ p1.argv.len = 0 :=
  have hs : CompleteSequences [100, 200] twoProcesses :=
    ⟨by decide, by decide, by decide⟩
  have hc : WatchEvents lsRules twoProcesses Init = some Init := by decide
  ⟨hs, Init, hc,
    (WatchEvents_complete_sequences lsRules [100, 200] twoProcesses Init rfl hs).1
      Init hc⟩

/-- Witness of C10: the sequence of process 200 in between does not show in
the accumulator of process 100, nor in the event returned on the RETURN
fragment of process 100, whose argv is "/bin/ls -la". -/
theorem WatchEvent_frame_witness :
    WatchEvents lsRules interleaved Init =
      some ⟨none, none, [(100, [str "/bin/ls", str "-la"])]⟩ ∧
    fragmentsOf 100 interleaved =
      [argFragment 100 (str "bash") (str "/bin/ls"),
       argFragment 100 (str "bash") (str "-la")] ∧
    GoMap.get? [(100, [str "/bin/ls", str "-la"])] 100 =
      accumulate (fragmentsOf 100 interleaved) (Init.argv.get? 100) ∧
    accumulate (fragmentsOf 100 interleaved) (Init.argv.get? 100) =
      some [str "/bin/ls", str "-la"] ∧
    (∃ e, (WatchEvent exampleEnv lsRules lsReturn
        ⟨none, none, [(100, [str "/bin/ls", str "-la"])]⟩).outcome = .ret (some e) none ∧
      e.Data.get? "argv" = some (str "/bin/ls -la")) ∧
    (WatchEvent exampleEnv lsRules lsReturn
        ⟨none, none, [(100, [str "/bin/ls", str "-la"])]⟩).outcome =
      (WatchEvent exampleEnv lsRules lsReturn
        ⟨none, none, [(200, [str "x"]), (100, [str "/bin/ls", str "-la"])]⟩).outcome := by
  have hc : WatchEvents lsRules interleaved Init =
      some ⟨none, none, [(100, [str "/bin/ls", str "-la"])]⟩ := by decide
  have hb : binaryRead lsReturn =
      .ok ⟨100, 1, charArray 16 (str "ls"), 1, charArray 128 [], 0⟩ := by decide
  have hf := WatchEvent_frame lsRules interleaved Init _ 100 hc
  have hout : ∃ e, (WatchEvent exampleEnv lsRules lsReturn
      ⟨none, none, [(100, [str "/bin/ls", str "-la"])]⟩).outcome = .ret (some e) none :=
    ⟨⟨100, 1, [("argv", str "/bin/ls -la"), ("command", str "ls"),
      ("returnval", str "0"), ("type", str "1"), ("runtime", str "not-found"),
      ("container_id", [])]⟩, by decide⟩
  obtain ⟨e, he⟩ := hout
  exact ⟨hc, by decide, hf.2.1, by decide,
    ⟨e, he, ((hf.2.2.2.2.1 exampleEnv lsReturn _ hb rfl rfl).2.1 e none he).trans
      (by decide)⟩,
    by decide⟩

/-- Witness of C9: after a `Load` that fails when attaching the kretprobe the
sensor has a module and no perf map, and `Unload` only closes the module. -/
theorem Unload_calls_witness :
    Load failingBcc Init =
      (⟨some ⟨1⟩, none, []⟩, some "attach sys_execve kretprobe: permission denied") ∧
    (Unload (Load failingBcc Init).1).2 = [Call.Close ⟨1⟩] ∧
    (∀ pm, Call.Stop pm ∉ (Unload (Load failingBcc Init).1).2) ∧
    (Unload Init).2 = [] :=
  ⟨by decide, by decide,
   fun pm h => by
     have h0 : (Load failingBcc Init).1.perfMap = none := by decide
     have h1 := ((Unload_calls (Load failingBcc Init).1).2.2.1 pm).1 h
     rw [h0] at h1
     exact absurd h1 (fun h2 => by cases h2),
   ((Unload_calls Init).2.2.2.2.2.1 rfl rfl).1⟩

/-- Counterexample to C2 as stated: the buffer of 164 bytes holding a RETURN
fragment whose command field has no zero byte decodes, `bytes.IndexByte` gives
-1, the slice `event.Comm[:-1]` is out of range, and the call panics. -/
theorem WatchEvent_unterminated_comm_counterexample :
    unterminatedReturn.length = 164 ∧
    binaryRead unterminatedReturn =
      .ok ⟨7, 1, str "0123456789abcdef", 1, charArray 128 [], 0⟩ ∧
    (0 : Byte) ∉ str "0123456789abcdef" ∧
    IndexByte (str "0123456789abcdef") 0 = -1 ∧
    sliceTo (str "0123456789abcdef") (IndexByte (str "0123456789abcdef") 0) = none ∧
    WatchEvent exampleEnv lsRules unterminatedReturn Init = ⟨.panicked, Init, []⟩ ∧
    ¬ ((WatchEvent exampleEnv lsRules unterminatedReturn Init).outcome = .ret none none ∨
      (∃ e, (WatchEvent exampleEnv lsRules unterminatedReturn Init).outcome =
        .ret (some e) none) ∨
      (∃ msg, (WatchEvent exampleEnv lsRules unterminatedReturn Init).outcome =
        .ret none (some msg))) := by
  have hp : WatchEvent exampleEnv lsRules unterminatedReturn Init =
      ⟨.panicked, Init, []⟩ := by decide
  refine ⟨by decide, by decide, by decide, by decide, by decide, hp, ?_⟩
  rw [hp]
  rintro (h | ⟨e, h⟩ | ⟨msg, h⟩) <;> cases h

/-- Witness of C2: the ARG fragment whose payload holds 128 non-zero bytes
makes the call return no event and no error, with the 128 bytes appended; the
RETURN fragment of `ls` makes it return an event and no error. -/
theorem WatchEvent_completes_witness :
    binaryRead unterminatedArg =
      .ok ⟨7, 1, charArray 16 (str "sh"), 0, List.replicate 128 0x78, 0⟩ ∧
    (0 : Byte) ∉ List.replicate 128 (0x78 : Byte) ∧
    (WatchEvent exampleEnv lsRules unterminatedArg Init).outcome = .ret none none ∧
    (WatchEvent exampleEnv lsRules unterminatedArg Init).prog.argv =
      [(7, [List.replicate 128 0x78])] ∧
    (WatchEvent exampleEnv lsRules lsReturn Init).outcome ≠ .panicked ∧
    ∃ e, (WatchEvent exampleEnv lsRules lsReturn Init).outcome = .ret (some e) none := by
  have ha : binaryRead unterminatedArg =
      .ok ⟨7, 1, charArray 16 (str "sh"), 0, List.replicate 128 0x78, 0⟩ := by decide
  have hb : binaryRead lsReturn =
      .ok ⟨100, 1, charArray 16 (str "ls"), 1, charArray 128 [], 0⟩ := by decide
  have h1 := WatchEvent_completes exampleEnv lsRules unterminatedArg Init
    (fun ev hev hk => by
      rw [ha] at hev
      injection hev with hev
      subst hev
      cases hk)
  have h2 := WatchEvent_completes exampleEnv lsRules lsReturn Init
    (fun ev hev _ => by
      rw [hb] at hev
      injection hev with hev
      subst hev
      decide)
  exact ⟨ha, by decide, h1.2.2.2.2 _ ha rfl, by decide, h2.1,
    ⟨⟨100, 1, [("argv", []), ("command", str "ls"), ("returnval", str "0"),
      ("type", str "1"), ("runtime", str "not-found"), ("container_id", [])]⟩,
     by decide⟩⟩

/-- Witness of C4: on the RETURN fragment of `ls` with pending arguments, the
rule command == "ls" gives the event with "runtime" and "container_id" after
three calls; the rule command == "cat" gives no event and no error after two
calls, the container id not among them. -/
theorem WatchEvent_return_iff_match_witness :
    binaryRead lsReturn =
      .ok ⟨100, 1, charArray 16 (str "ls"), 1, charArray 128 [], 0⟩ ∧
    (0 : Byte) ∈ charArray 16 (str "ls") ∧
    (WatchEvent exampleEnv lsRules lsReturn
        ⟨none, none, [(100, [str "/bin/ls", str "-la"])]⟩).outcome =
      .ret (some ⟨100, 1, [("argv", str "/bin/ls -la"), ("command", str "ls"),
        ("returnval", str "0"), ("type", str "1"), ("runtime", str "not-found"),
        ("container_id", [])]⟩) none ∧
    (WatchEvent exampleEnv lsRules lsReturn
        ⟨none, none, [(100, [str "/bin/ls", str "-la"])]⟩).calls =
      [.GetContainerRuntime 1 100,
       .Match [("argv", str "/bin/ls -la"), ("command", str "ls"),
         ("returnval", str "0"), ("type", str "1")] (str "not-found"),
       .GetContainerID 100] ∧
    (WatchEvent exampleEnv [("command", str "cat")] lsReturn
        ⟨none, none, [(100, [str "/bin/ls", str "-la"])]⟩).outcome = .ret none none ∧
    (∀ q, Call.GetContainerID q ∉
      (WatchEvent exampleEnv [("command", str "cat")] lsReturn
        ⟨none, none, [(100, [str "/bin/ls", str "-la"])]⟩).calls) := by
  have hb : binaryRead lsReturn =
      .ok ⟨100, 1, charArray 16 (str "ls"), 1, charArray 128 [], 0⟩ := by decide
  have h1 := WatchEvent_return_iff_match exampleEnv lsRules lsReturn
    ⟨none, none, [(100, [str "/bin/ls", str "-la"])]⟩ _ hb rfl (by decide)
  have h2 := WatchEvent_return_iff_match exampleEnv [("command", str "cat")] lsReturn
    ⟨none, none, [(100, [str "/bin/ls", str "-la"])]⟩ _ hb rfl (by decide)
  have hno := h2.2.2.2.2 (by decide)
  exact ⟨hb, by decide, by decide, h1.2.1.trans (by decide), hno.1, hno.2⟩

end Bpfd
